import Mathlib

/-!
# web-tools: the tool processing dispatcher

A shallow embedding of `backend/internal/services/services.go`
(`Service.ProcessTool` and the five `process*` transforms) together with the
request and response types of `backend/internal/models/models.go`.

Go strings are byte sequences, so the embedding works on lists of bytes.
The pieces of the Go standard library the transforms call are embedded next
to the code that calls them: `unicode/utf8`, `strconv.ParseInt`, the `%04x`
verb of `fmt` and `encoding/base64` as definitions, and `encoding/json`,
`net/url` and `html` as the fields of a library record that `ProcessTool`
takes as a parameter. The escaping functions of `net/url` are also given as
definitions, and the URL round trip is stated for a library record whose URL
functions are those.
-/

namespace WebTools

/-! ## Bytes and strings -/

/-- A byte (`uint8`). -/
abbrev Byte := Fin 256

/-- A Go `string`: a sequence of bytes, not necessarily valid UTF-8. -/
abbrev GoString := List Byte

/-- Go's conversion `byte(x)` of an unsigned integer: the low eight bits. -/
def byteOf (n : Nat) : Byte := ⟨n % 256, Nat.mod_lt n (by decide)⟩

/-! ## `unicode/utf8` -/

/-- The constant `utf8.RuneError`, U+FFFD. -/
def RuneError : Nat := 0xFFFD

/-- The constant `utf8.MaxRune`, U+10FFFF. -/
def MaxRune : Nat := 0x10FFFF

/-- Function `utf8.AppendRune` on a non-negative rune: one to four bytes, with
surrogates and values above `MaxRune` replaced by `RuneError`. -/
def appendRune (r : Nat) : GoString :=
  if r ≤ 0x7F then [byteOf r]
  else if r ≤ 0x7FF then
    [byteOf (0xC0 ||| (r >>> 6)), byteOf (0x80 ||| (r &&& 0x3F))]
  else if r > MaxRune ∨ (0xD800 ≤ r ∧ r ≤ 0xDFFF) then
    [byteOf (0xE0 ||| (RuneError >>> 12)), byteOf (0x80 ||| ((RuneError >>> 6) &&& 0x3F)),
      byteOf (0x80 ||| (RuneError &&& 0x3F))]
  else if r ≤ 0xFFFF then
    [byteOf (0xE0 ||| (r >>> 12)), byteOf (0x80 ||| ((r >>> 6) &&& 0x3F)),
      byteOf (0x80 ||| (r &&& 0x3F))]
  else
    [byteOf (0xF0 ||| (r >>> 18)), byteOf (0x80 ||| ((r >>> 12) &&& 0x3F)),
      byteOf (0x80 ||| ((r >>> 6) &&& 0x3F)), byteOf (0x80 ||| (r &&& 0x3F))]

/-- The conversion `string(r)` of a rune (`int32`): the UTF-8 encoding of `r`,
a negative rune giving the encoding of `RuneError`. -/
def encodeRune (r : Int) : GoString :=
  if r < 0 then appendRune RuneError else appendRune r.toNat

/-- A Go string literal: the UTF-8 bytes of its characters. -/
def str (s : String) : GoString :=
  s.toList.flatMap (fun c => appendRune c.toNat)

/-- The table `first` of `unicode/utf8` together with `acceptRanges`: for a
leading byte of a multi-byte sequence, the sequence length and the range
allowed for the second byte; `none` for a byte that cannot start one. -/
def first (s0 : Nat) : Option (Nat × Nat × Nat) :=
  if 0xC2 ≤ s0 ∧ s0 ≤ 0xDF then some (2, 0x80, 0xBF)
  else if s0 = 0xE0 then some (3, 0xA0, 0xBF)
  else if 0xE1 ≤ s0 ∧ s0 ≤ 0xEC then some (3, 0x80, 0xBF)
  else if s0 = 0xED then some (3, 0x80, 0x9F)
  else if 0xEE ≤ s0 ∧ s0 ≤ 0xEF then some (3, 0x80, 0xBF)
  else if s0 = 0xF0 then some (4, 0x90, 0xBF)
  else if 0xF1 ≤ s0 ∧ s0 ≤ 0xF3 then some (4, 0x80, 0xBF)
  else if s0 = 0xF4 then some (4, 0x80, 0x8F)
  else none

/-- Function `utf8.DecodeRuneInString`: the first rune of `s` and its width in
bytes; `(RuneError, 1)` for an invalid or truncated encoding and
`(RuneError, 0)` for the empty string. -/
def decodeRune (s : GoString) : Nat × Nat :=
  match s with
  | [] => (RuneError, 0)
  | s0 :: t =>
    if s0.val < 0x80 then (s0.val, 1)
    else
      match first s0.val with
      | none => (RuneError, 1)
      | some (sz, lo, hi) =>
        if t.length + 1 < sz then (RuneError, 1)
        else
          match t with
          | [] => (RuneError, 1)
          | s1 :: t1 =>
            if s1.val < lo ∨ hi < s1.val then (RuneError, 1)
            else if sz ≤ 2 then (((s0.val &&& 0x1F) <<< 6) ||| (s1.val &&& 0x3F), 2)
            else
              match t1 with
              | [] => (RuneError, 1)
              | s2 :: t2 =>
                if s2.val < 0x80 ∨ 0xBF < s2.val then (RuneError, 1)
                else if sz ≤ 3 then
                  (((s0.val &&& 0x0F) <<< 12) ||| ((s1.val &&& 0x3F) <<< 6)
                    ||| (s2.val &&& 0x3F), 3)
                else
                  match t2 with
                  | [] => (RuneError, 1)
                  | s3 :: _ =>
                    if s3.val < 0x80 ∨ 0xBF < s3.val then (RuneError, 1)
                    else
                      (((s0.val &&& 0x07) <<< 18) ||| ((s1.val &&& 0x3F) <<< 12)
                        ||| ((s2.val &&& 0x3F) <<< 6) ||| (s3.val &&& 0x3F), 4)

/-- The runes visited by `for _, r := range s`, decoding one rune at a time;
`fuel` bounds the number of iterations. -/
def rangeRunes : Nat → GoString → List Nat
  | 0, _ => []
  | _ + 1, [] => []
  | fuel + 1, b :: t =>
    let rs := decodeRune (b :: t)
    rs.1 :: rangeRunes fuel ((b :: t).drop rs.2)

/-- The runes of `for _, r := range s`: every iteration consumes at least one
byte, so `len(s)` iterations suffice. -/
def runes (s : GoString) : List Nat := rangeRunes s.length s

/-! ## `strconv.ParseInt(s, 16, 32)` -/

/-- One step of the digit loop of `strconv.ParseUint` in base 16: the value of
the byte `c` as a hexadecimal digit, `none` for a syntax error. -/
def hexVal (c : Byte) : Option Nat :=
  let lower := c.val ||| 0x20
  if 0x30 ≤ c.val ∧ c.val ≤ 0x39 then some (c.val - 0x30)
  else if 0x61 ≤ lower ∧ lower ≤ 0x7A then
    (if lower - 0x61 + 10 ≥ 16 then none else some (lower - 0x61 + 10))
  else none

/-- The digit loop of `strconv.ParseUint(s, 16, _)` with accumulator `n`; the
value is kept unbounded and the range check is left to the caller. -/
def parseUintLoop : GoString → Nat → Option Nat
  | [], n => some n
  | c :: t, n =>
    match hexVal c with
    | none => none
    | some d => parseUintLoop t (n * 16 + d)

/-- Function `strconv.ParseUint(s, 16, _)` before its range check: `none` for
a syntax error (the empty string included). -/
def parseUint16 (s : GoString) : Option Nat :=
  match s with
  | [] => none
  | _ => parseUintLoop s 0

/-- Function `strconv.ParseInt(s, 16, 32)`: an optional sign followed by
hexadecimal digits, `none` when the call returns a non-nil error (syntax or
range). -/
def parseInt16 (s : GoString) : Option Int :=
  match s with
  | [] => none
  | c :: t =>
    let neg := c.val = 0x2D
    let digits := if c.val = 0x2B ∨ c.val = 0x2D then t else c :: t
    match parseUint16 digits with
    | none => none
    | some un =>
      if ¬ neg ∧ un ≥ 2 ^ 31 then none
      else if neg ∧ un > 2 ^ 31 then none
      else some (if neg then - (un : Int) else (un : Int))

/-! ## `fmt`: the verbs `%04x` and `%04X` -/

/-- The digit loop of `fmt.fmtInteger` in base 16, writing right to left into
`buf` with the digit string `digits`; `fuel` bounds the iterations. -/
def hexLoop (digits : GoString) : Nat → Nat → GoString → GoString
  | 0, _, buf => buf
  | fuel + 1, u, buf =>
    if u ≥ 16 then hexLoop digits fuel (u >>> 4) (digits.getD (u &&& 0xF) 0 :: buf)
    else digits.getD u 0 :: buf

/-- The zero padding of `fmt.fmtInteger`: with the `0` flag and a width, the
width is the minimum number of digits; longer output is not cut. -/
def zeroPad (prec : Nat) (buf : GoString) : GoString :=
  List.replicate (prec - buf.length) (byteOf 0x30) ++ buf

/-- The digits `0123456789abcdef` of the verb `%x`. -/
def ldigits : GoString := str "0123456789abcdef"

/-- The digits `0123456789ABCDEF` of the verb `%X`. -/
def udigits : GoString := str "0123456789ABCDEF"

/-- The verb `%04x` applied to a non-negative integer. -/
def fmtHex04 (u : Nat) : GoString := zeroPad 4 (hexLoop ldigits (u + 1) u [])

/-- The verb `%04X` applied to a non-negative integer. -/
def fmtHEX04 (u : Nat) : GoString := zeroPad 4 (hexLoop udigits (u + 1) u [])

/-- Function `strconv.Itoa` on a non-negative integer. -/
def itoa (n : Nat) : GoString := (Nat.toDigits 10 n).flatMap (fun c => appendRune c.toNat)

/-! ## `encoding/base64`: `StdEncoding` and `URLEncoding` -/

/-- Modelled from the spec: the standard alphabet of RFC 4648 (the standard
library package `encoding/base64` is not part of the repository sources). -/
def encodeStd : GoString :=
  str "ABCDEFGHIJKLMNOPQRSTUVWXYZabcdefghijklmnopqrstuvwxyz0123456789+/"

/-- Modelled from the spec: the URL-safe alphabet of RFC 4648. -/
def encodeURL : GoString :=
  str "ABCDEFGHIJKLMNOPQRSTUVWXYZabcdefghijklmnopqrstuvwxyz0123456789-_"

/-- Modelled from the spec: the padding character `=` of both encodings. -/
def padChar : Byte := byteOf 0x3D

/-- Modelled from the spec: `Encoding.EncodeToString` for the alphabet `enc`
with padding: each group of three bytes becomes four alphabet characters, and
a final group of one or two bytes is padded with `=` to four characters. -/
def b64Encode (enc : GoString) : GoString → GoString
  | b0 :: b1 :: b2 :: rest =>
    let val := (b0.val <<< 16) ||| (b1.val <<< 8) ||| b2.val
    enc.getD ((val >>> 18) &&& 0x3F) 0 :: enc.getD ((val >>> 12) &&& 0x3F) 0 ::
      enc.getD ((val >>> 6) &&& 0x3F) 0 :: enc.getD (val &&& 0x3F) 0 :: b64Encode enc rest
  | [b0, b1] =>
    let val := (b0.val <<< 16) ||| (b1.val <<< 8)
    [enc.getD ((val >>> 18) &&& 0x3F) 0, enc.getD ((val >>> 12) &&& 0x3F) 0,
      enc.getD ((val >>> 6) &&& 0x3F) 0, padChar]
  | [b0] =>
    let val := b0.val <<< 16
    [enc.getD ((val >>> 18) &&& 0x3F) 0, enc.getD ((val >>> 12) &&& 0x3F) 0, padChar, padChar]
  | [] => []

/-- Modelled from the spec: the decoding table of the alphabet `enc`, the
position of `c` in the alphabet and `0xFF` for a byte outside it. -/
def decodeMap (enc : GoString) (c : Byte) : Nat :=
  if enc.indexOf c < enc.length then enc.indexOf c else 0xFF

/-- Modelled from the spec: the bytes of a quantum of `dlen` collected
six-bit values (`dlen - 1` bytes, from the 24-bit value they form). -/
def assemble (dbuf : List Nat) (dlen : Nat) : GoString :=
  let val := (dbuf.getD 0 0 <<< 18) ||| (dbuf.getD 1 0 <<< 12) ||| (dbuf.getD 2 0 <<< 6)
    ||| dbuf.getD 3 0
  [byteOf (val >>> 16), byteOf (val >>> 8), byteOf val].take (dlen - 1)

/-- Modelled from the spec: skipping `\r` and `\n` while decoding; the
remaining input and its offset. -/
def skipNewlines : GoString → Nat → GoString × Nat
  | [], si => ([], si)
  | c :: t, si =>
    if c.val = 0x0A ∨ c.val = 0x0D then skipNewlines t (si + 1) else (c :: t, si)

/-- Modelled from the spec: `Encoding.DecodeString` for the alphabet `enc`
with padding, non-strict, reading quanta of four characters and ignoring
`\r` and `\n`. The arguments are the length of the whole input, the input
still to read, its offset `si`, the six-bit values of the current quantum and
the bytes decoded so far. An error carries the offset reported by
`CorruptInputError`. -/
def b64Decode (enc : GoString) (len : Nat) :
    GoString → Nat → List Nat → GoString → Except Nat GoString
  | [], si, dbuf, acc => if dbuf.length = 0 then .ok acc else .error (si - dbuf.length)
  | c :: t, si, dbuf, acc =>
    if decodeMap enc c ≠ 0xFF then
      if dbuf.length = 3 then
        b64Decode enc len t (si + 1) [] (acc ++ assemble (dbuf ++ [decodeMap enc c]) 4)
      else b64Decode enc len t (si + 1) (dbuf ++ [decodeMap enc c]) acc
    else if c.val = 0x0A ∨ c.val = 0x0D then b64Decode enc len t (si + 1) dbuf acc
    else if c ≠ padChar then .error si
    else if dbuf.length < 2 then .error si
    else if dbuf.length = 2 then
      match skipNewlines t (si + 1) with
      | ([], _) => .error len
      | (c1 :: t1, si1) =>
        if c1 ≠ padChar then .error (si1 - 1)
        else
          match skipNewlines t1 (si1 + 1) with
          | ([], _) => .ok (acc ++ assemble dbuf 2)
          | (_ :: _, si2) => .error si2
    else
      match skipNewlines t (si + 1) with
      | ([], _) => .ok (acc ++ assemble dbuf 3)
      | (_ :: _, si2) => .error si2

/-- Modelled from the spec: `Encoding.DecodeString`. -/
def b64DecodeString (enc : GoString) (s : GoString) : Except Nat GoString :=
  b64Decode enc s.length s 0 [] []

/-- Modelled from the spec: the text of a `base64.CorruptInputError`. -/
def corruptInputError (offset : Nat) : GoString :=
  str "illegal base64 data at input byte " ++ itoa offset

/-! ## The standard library packages taken as parameters -/

/-- The functions of `encoding/json`, `net/url` and `html` called by the
transforms. An error is carried as its message, the text `%v` prints. The two
laws record what `json.Unmarshal` does on the two inputs named by the
specification. -/
structure StdLib where
  /-- The values `json.Unmarshal` stores into an `interface{}`. -/
  JSON : Type
  /-- Function `json.Unmarshal` into an `interface{}`. -/
  jsonUnmarshal : GoString → Except GoString JSON
  /-- Function `json.MarshalIndent` with prefix `""` and indent `"  "`. -/
  jsonMarshalIndent : JSON → Except GoString GoString
  /-- Function `json.Marshal`. -/
  jsonMarshal : JSON → Except GoString GoString
  /-- Function `url.QueryEscape`. -/
  queryEscape : GoString → GoString
  /-- Function `url.QueryUnescape`. -/
  queryUnescape : GoString → Except GoString GoString
  /-- Function `url.PathEscape`. -/
  pathEscape : GoString → GoString
  /-- Function `url.PathUnescape`. -/
  pathUnescape : GoString → Except GoString GoString
  /-- Function `html.EscapeString`. -/
  htmlEscapeString : GoString → GoString
  /-- Function `html.UnescapeString`. -/
  htmlUnescapeString : GoString → GoString
  /-- The text `null` is a JSON value. -/
  jsonUnmarshal_null : ∃ v, jsonUnmarshal (str "null") = .ok v
  /-- The text `{"a":}` is not a JSON value. -/
  jsonUnmarshal_bad : ∃ e, jsonUnmarshal (str "\x7b\"a\":\x7d") = .error e

/-! ## `models.go` -/

/-- The dynamic values an `interface{}` of a settings map holds after JSON
binding; a number is carried by the bits of its `float64`. -/
inductive Value where
  | null
  | bool (b : Bool)
  | number (bits : Nat)
  | string (s : GoString)
  | array (xs : List Value)
  | object (kvs : List (GoString × Value))

/-- A `map[string]interface{}`: the value stored under each key, if any. -/
abbrev SettingsMap := GoString → Option Value

/-- The struct `models.ToolRequest`; `Settings` is `none` for a nil map. -/
structure ToolRequest where
  Input : GoString
  Settings : Option SettingsMap

/-- The struct `models.ToolResponse`. The field `Metadata` is left out: no
transform sets it, so it is nil in every response. -/
structure ToolResponse where
  Output : GoString
  Error : GoString
  deriving DecidableEq, Repr

/-- A run-time fault of a call: a slice expression out of range (a panic),
or a loop of the embedding that ran out of fuel. -/
inductive Fault where
  | sliceBounds
  | outOfFuel
  deriving DecidableEq, Repr

/-- What a call returning `(*models.ToolResponse, error)` does: it returns a
response and a nil error, or a nil response and an error, or it faults. -/
inductive CallResult where
  | response (r : ToolResponse)
  | error (msg : GoString)
  | fault (f : Fault)
  deriving DecidableEq, Repr

/-! ## `services.go` -/

/-- The type assertion `v.(string)` on the result of a map lookup. -/
def assertString : Option Value → Option GoString
  | some (.string s) => some s
  | _ => none

/-- The mode resolution that opens every transform: `mode := dflt`, replaced
by `request.Settings["mode"].(string)` when the map is not nil and the
assertion succeeds. -/
def resolveMode (dflt : GoString) (request : ToolRequest) : GoString :=
  match request.Settings with
  | none => dflt
  | some settings =>
    match assertString (settings (str "mode")) with
    | some m => m
    | none => dflt

/-- Method `Service.processBase64`. -/
def processBase64 (request : ToolRequest) : CallResult :=
  let mode := resolveMode (str "encode") request
  if mode = str "encode" then
    .response ⟨b64Encode encodeStd request.Input, []⟩
  else if mode = str "decode" then
    match b64DecodeString encodeStd request.Input with
    | .error e => .response ⟨[], str "Invalid base64 string: " ++ corruptInputError e⟩
    | .ok decoded => .response ⟨decoded, []⟩
  else if mode = str "url-encode" then
    .response ⟨b64Encode encodeURL request.Input, []⟩
  else if mode = str "url-decode" then
    match b64DecodeString encodeURL request.Input with
    | .error e => .response ⟨[], str "Invalid base64 URL string: " ++ corruptInputError e⟩
    | .ok decoded => .response ⟨decoded, []⟩
  else .response ⟨[], str "Unsupported mode: " ++ mode⟩

/-- Method `Service.processJSON`: the input is parsed before the mode is
looked at. -/
def processJSON (lib : StdLib) (request : ToolRequest) : CallResult :=
  let mode := resolveMode (str "format") request
  match lib.jsonUnmarshal request.Input with
  | .error err => .response ⟨[], str "Invalid JSON: " ++ err⟩
  | .ok jsonData =>
    if mode = str "format" ∨ mode = str "prettify" then
      match lib.jsonMarshalIndent jsonData with
      | .error err => .response ⟨[], str "Error formatting JSON: " ++ err⟩
      | .ok formatted => .response ⟨formatted, []⟩
    else if mode = str "minify" then
      match lib.jsonMarshal jsonData with
      | .error err => .response ⟨[], str "Error minifying JSON: " ++ err⟩
      | .ok minified => .response ⟨minified, []⟩
    else if mode = str "validate" then
      .response ⟨str "Valid JSON", []⟩
    else .response ⟨[], str "Unsupported mode: " ++ mode⟩

/-- Method `Service.processURL`. -/
def processURL (lib : StdLib) (request : ToolRequest) : CallResult :=
  let mode := resolveMode (str "encode") request
  if mode = str "encode" then
    .response ⟨lib.queryEscape request.Input, []⟩
  else if mode = str "decode" then
    match lib.queryUnescape request.Input with
    | .error err => .response ⟨[], str "Invalid URL encoding: " ++ err⟩
    | .ok decoded => .response ⟨decoded, []⟩
  else if mode = str "encode-component" then
    .response ⟨lib.pathEscape request.Input, []⟩
  else if mode = str "decode-component" then
    match lib.pathUnescape request.Input with
    | .error err => .response ⟨[], str "Invalid URL path encoding: " ++ err⟩
    | .ok decoded => .response ⟨decoded, []⟩
  else .response ⟨[], str "Unsupported mode: " ++ mode⟩

/-- Method `Service.processHTML`. -/
def processHTML (lib : StdLib) (request : ToolRequest) : CallResult :=
  let mode := resolveMode (str "encode") request
  if mode = str "encode" then
    .response ⟨lib.htmlEscapeString request.Input, []⟩
  else if mode = str "decode" then
    .response ⟨lib.htmlUnescapeString request.Input, []⟩
  else .response ⟨[], str "Unsupported mode: " ++ mode⟩

/-- A slice expression `s[lo:hi]`: it panics unless `lo ≤ hi ≤ len(s)`. -/
def slice (s : GoString) (lo hi : Nat) : Except Fault GoString :=
  if lo ≤ hi ∧ hi ≤ s.length then .ok ((s.drop lo).take (hi - lo)) else .error .sliceBounds

/-- The loop of the `decode` case of `Service.processUnicode`, from the
state `(output, i)`: `for ; i < len(output)-5; i++`, the length being read
again at every iteration. The comparison is on signed integers, so it is
`i + 5 < len(output)`. -/
def unicodeDecodeLoop : Nat → GoString → Nat → Except Fault GoString
  | 0, output, i => if i + 5 < output.length then .error .outOfFuel else .ok output
  | fuel + 1, output, i =>
    if i + 5 < output.length then
      match slice output i (i + 2) with
      | .error f => .error f
      | .ok marker =>
        if marker = str "\\u" then
          match slice output (i + 2) (i + 6) with
          | .error f => .error f
          | .ok digits =>
            match parseInt16 digits with
            | some codePoint =>
              match slice output 0 i, slice output (i + 6) output.length with
              | .ok pre, .ok post =>
                unicodeDecodeLoop fuel (pre ++ encodeRune codePoint ++ post) (i + 1)
              | .error f, _ => .error f
              | _, .error f => .error f
            | none => unicodeDecodeLoop fuel output (i + 1)
        else unicodeDecodeLoop fuel output (i + 1)
    else .ok output

/-- Method `Service.processUnicode`. The decode loop runs at most
`len(request.Input)` times, which is the fuel it is given. -/
def processUnicode (request : ToolRequest) : CallResult :=
  let mode := resolveMode (str "encode") request
  if mode = str "encode" then
    let parts := (runes request.Input).map
      (fun r => if r > 127 then str "\\u" ++ fmtHex04 r else encodeRune r)
    .response ⟨parts.flatten, []⟩
  else if mode = str "decode" then
    match unicodeDecodeLoop request.Input.length request.Input 0 with
    | .error f => .fault f
    | .ok output => .response ⟨output, []⟩
  else if mode = str "info" then
    let info := (runes request.Input).map
      (fun r => [byteOf 0x27] ++ appendRune r ++ [byteOf 0x27] ++ str " (U+" ++ fmtHEX04 r
        ++ str ")")
    .response ⟨(str "\n").intercalate info, []⟩
  else .response ⟨[], str "Unsupported mode: " ++ mode⟩

/-- Method `Service.ProcessTool`. -/
def ProcessTool (lib : StdLib) (toolID : GoString) (request : ToolRequest) : CallResult :=
  if toolID = str "base64" then processBase64 request
  else if toolID = str "json" then processJSON lib request
  else if toolID = str "url" then processURL lib request
  else if toolID = str "html" then processHTML lib request
  else if toolID = str "unicode" then processUnicode request
  else .error (str "unsupported tool: " ++ toolID)

/-! ## Definitions used to state the properties -/

/-- The five identifiers `ProcessTool` has a case for. -/
def knownTools : List GoString :=
  [str "base64", str "json", str "url", str "html", str "unicode"]

/-- The modes the `switch mode` of each transform has a case for. -/
def recognisedModes (toolID : GoString) : List GoString :=
  if toolID = str "base64" then [str "encode", str "decode", str "url-encode", str "url-decode"]
  else if toolID = str "json" then [str "format", str "prettify", str "minify", str "validate"]
  else if toolID = str "url" then
    [str "encode", str "decode", str "encode-component", str "decode-component"]
  else if toolID = str "html" then [str "encode", str "decode"]
  else if toolID = str "unicode" then [str "encode", str "decode", str "info"]
  else []

/-- The mode each transform starts from. -/
def defaultMode (toolID : GoString) : GoString :=
  if toolID = str "json" then str "format" else str "encode"

/-- The settings map with the single entry `"mode": m`. -/
def modeSettings (m : GoString) : SettingsMap :=
  fun k => if k = str "mode" then some (.string m) else none

/-- The UTF-8 encoding of a sequence of Unicode characters. -/
def utf8 (cs : List Char) : GoString := cs.flatMap (fun c => appendRune c.toNat)

/-- The single forward pass the decode loop of `processUnicode` amounts to:
at a backslash and `u` followed by four bytes that `strconv.ParseInt`
accepts, the encoding of the parsed rune is emitted and the six bytes are
skipped; any other byte is copied. -/
def decodePass : GoString → GoString
  | [] => []
  | c :: u :: h0 :: h1 :: h2 :: h3 :: rest =>
    if [c, u] = str "\\u" then
      match parseInt16 [h0, h1, h2, h3] with
      | some codePoint => encodeRune codePoint ++ decodePass rest
      | none => c :: decodePass (u :: h0 :: h1 :: h2 :: h3 :: rest)
    else c :: decodePass (u :: h0 :: h1 :: h2 :: h3 :: rest)
  | c :: t => c :: decodePass t

/-- An instance of the library record for evaluating `ProcessTool` on concrete
requests. Its JSON functions agree with `encoding/json` on the texts `null`,
`{"a":}` and the empty text, and treat any other text as cut short; its URL
and HTML functions are the identity, which is what the library functions are
on letters and digits. -/
def sampleLib : StdLib where
  JSON := Unit
  jsonUnmarshal s :=
    if s = str "null" then .ok ()
    else if s = str "\x7b\"a\":\x7d" then
      .error (str "invalid character \x27\x7d\x27 looking for beginning of value")
    else .error (str "unexpected end of JSON input")
  jsonMarshalIndent _ := .ok (str "null")
  jsonMarshal _ := .ok (str "null")
  queryEscape s := s
  queryUnescape s := .ok s
  pathEscape s := s
  pathUnescape s := .ok s
  htmlEscapeString s := s
  htmlUnescapeString s := s
  jsonUnmarshal_null := ⟨(), if_pos rfl⟩
  jsonUnmarshal_bad :=
    ⟨str "invalid character \x27\x7d\x27 looking for beginning of value",
      (if_neg (by decide)).trans (if_pos rfl)⟩

/-- What the round trip needs of an alphabet: decoding the character of a
six-bit value gives the value back, and the padding character, which is not a
line break, is outside the alphabet. -/
structure GoodAlphabet (enc : GoString) : Prop where
  decode_encode : ∀ k : Fin 64, decodeMap enc (enc.getD k.val 0) = k.val
  pad : decodeMap enc padChar = 0xFF

/-- The lowercase hexadecimal digit of a value below 16. -/
def hexDigit (d : Nat) : Byte :=
  if d < 10 then byteOf (0x30 + d) else byteOf (0x61 + (d - 10))

/-- A number written as four lowercase hexadecimal digits, zero-padded. -/
def hex4 (n : Nat) : GoString :=
  [hexDigit (n / 4096 % 16), hexDigit (n / 256 % 16), hexDigit (n / 16 % 16), hexDigit (n % 16)]

/-- The escape of a character above 127 as the specification describes it: a
backslash, the letter `u` and the code point as four lowercase hexadecimal
digits. -/
def escape4 (n : Nat) : GoString := str "\\u" ++ hex4 n

/-- The encoding of one code point as the specification describes it: the
character itself up to code point 127, its escape above. -/
def encodeCodePoint (n : Nat) : GoString :=
  if n ≤ 127 then [byteOf n] else escape4 n

/-- The encoding of one character as the specification describes it. -/
def encodeChar (c : Char) : GoString := encodeCodePoint c.toNat

/-- All the lowercase hexadecimal digits of a code point above `0xFFFF`: five
of them below `0x100000`, six from there on. -/
def hexAbove (n : Nat) : GoString :=
  if n < 0x100000 then hexDigit (n / 65536 % 16) :: hex4 n
  else hexDigit (n / 1048576 % 16) :: hexDigit (n / 65536 % 16) :: hex4 n

/-- Whether a string starts with a backslash, the letter `u` and four bytes
that `strconv.ParseInt` accepts in base 16. -/
def escapeAt : GoString → Bool
  | c :: u :: h0 :: h1 :: h2 :: h3 :: _ =>
    decide ([c, u] = str "\\u") && (parseInt16 [h0, h1, h2, h3]).isSome
  | _ => false

/-- Whether a string holds, at some position, a backslash, the letter `u` and
four bytes that `strconv.ParseInt` accepts in base 16. -/
def hasEscape : GoString → Bool
  | [] => false
  | c :: t => escapeAt (c :: t) || hasEscape t

/-- A hexadecimal digit as the specification lists them: `0-9`, `a-f`, `A-F`. -/
def isHexDigit (c : Byte) : Bool :=
  (0x30 ≤ c.val && c.val ≤ 0x39) || (0x61 ≤ c.val && c.val ≤ 0x66)
    || (0x41 ≤ c.val && c.val ≤ 0x46)

/-- The value of a hexadecimal digit. -/
def hexDigitVal (c : Byte) : Nat :=
  if c.val ≤ 0x39 then c.val - 0x30
  else if c.val ≤ 0x46 then c.val - 0x41 + 10
  else c.val - 0x61 + 10

/-- The decoding pass as the specification words it: at a backslash, the
letter `u` and four hexadecimal digits, the character with that code point is
emitted and the six characters are skipped; any other character is copied.
For the character of a code point, Go's conversion `string(rune)` is taken. -/
def decodeSpec : GoString → GoString
  | [] => []
  | c :: u :: h0 :: h1 :: h2 :: h3 :: rest =>
    if [c, u] = str "\\u" ∧ isHexDigit h0 ∧ isHexDigit h1 ∧ isHexDigit h2 ∧ isHexDigit h3 then
      encodeRune (((hexDigitVal h0 * 16 + hexDigitVal h1) * 16 + hexDigitVal h2) * 16
        + hexDigitVal h3 : Nat) ++ decodeSpec rest
    else c :: decodeSpec (u :: h0 :: h1 :: h2 :: h3 :: rest)
  | c :: t => c :: decodeSpec t

/-- Whether a string starts with a backslash, the letter `u`, a sign and three
further bytes such that `strconv.ParseInt` accepts the four in base 16. -/
def signedEscapeAt : GoString → Bool
  | c :: u :: h0 :: h1 :: h2 :: h3 :: _ =>
    decide ([c, u] = str "\\u") && decide (h0.val = 0x2B ∨ h0.val = 0x2D)
      && (parseInt16 [h0, h1, h2, h3]).isSome
  | _ => false

/-- Whether a string holds a signed escape at some position. -/
def hasSignedEscape : GoString → Bool
  | [] => false
  | c :: t => signedEscapeAt (c :: t) || hasSignedEscape t

/-! ## `net/url`: escaping -/

/-- Modelled from the spec: the two escaping conventions the URL tool uses
(the standard library package `net/url` is not part of the repository
sources): the path-segment convention of `url.PathEscape` and the
query-component convention of `url.QueryEscape`. -/
inductive Encoding where
  | encodePathSegment
  | encodeQueryComponent
  deriving DecidableEq, Repr

/-- Modelled from the spec: whether the byte `c` must be percent-escaped.
Letters, digits and `- _ . ~` never are; of the reserved characters
`$ & + , / : ; = ? @` a path segment escapes only `/ ; , ?` and a query
component escapes all; every other byte is escaped. -/
def shouldEscape (c : Byte) (mode : Encoding) : Bool :=
  if (0x61 ≤ c.val ∧ c.val ≤ 0x7A) ∨ (0x41 ≤ c.val ∧ c.val ≤ 0x5A)
      ∨ (0x30 ≤ c.val ∧ c.val ≤ 0x39) then false
  else if c ∈ str "-_.~" then false
  else if c ∈ str "$&+,/:;=?@" then
    match mode with
    | .encodePathSegment => decide (c ∈ str "/;,?")
    | .encodeQueryComponent => true
  else true

/-- Modelled from the spec: the digits of a percent-escape. -/
def upperhex : GoString := str "0123456789ABCDEF"

/-- Modelled from the spec: the escaping of one byte: a space becomes `+` in
a query component, a byte that must be escaped becomes `%` and its two
uppercase hexadecimal digits, any other byte stands for itself. -/
def escapeByte (mode : Encoding) (c : Byte) : GoString :=
  if c.val = 0x20 ∧ mode = .encodeQueryComponent then [byteOf 0x2B]
  else if shouldEscape c mode then
    [byteOf 0x25, upperhex.getD (c.val >>> 4) 0, upperhex.getD (c.val &&& 15) 0]
  else [c]

/-- Modelled from the spec: the function `escape` of `net/url`: the string
itself when no byte needs escaping, else the escapings of its bytes. -/
def escape (s : GoString) (mode : Encoding) : GoString :=
  if s.all (fun c => !shouldEscape c mode) then s else s.flatMap (escapeByte mode)

/-- Modelled from the spec: whether a byte is a hexadecimal digit. -/
def ishex (c : Byte) : Bool :=
  (0x30 ≤ c.val && c.val ≤ 0x39) || (0x61 ≤ c.val && c.val ≤ 0x66)
    || (0x41 ≤ c.val && c.val ≤ 0x46)

/-- Modelled from the spec: the value of a hexadecimal digit, 0 for another
byte. -/
def unhex (c : Byte) : Nat :=
  if 0x30 ≤ c.val ∧ c.val ≤ 0x39 then c.val - 0x30
  else if 0x61 ≤ c.val ∧ c.val ≤ 0x66 then c.val - 0x61 + 10
  else if 0x41 ≤ c.val ∧ c.val ≤ 0x46 then c.val - 0x41 + 10
  else 0

/-- Modelled from the spec: the first loop of `unescape`, which checks that
every `%` is followed by two hexadecimal digits and counts them. The result
is the count `n` and the flag `hasPlus`, or the `EscapeError`: the malformed
escape, cut to three bytes. -/
def unescapeCheck (mode : Encoding) : GoString → Nat → Bool → Except GoString (Nat × Bool)
  | [], n, hasPlus => .ok (n, hasPlus)
  | c :: h1 :: h2 :: rest, n, hasPlus =>
    if c.val = 0x25 then
      if ishex h1 ∧ ishex h2 then unescapeCheck mode rest (n + 1) hasPlus
      else .error [c, h1, h2]
    else if c.val = 0x2B then
      unescapeCheck mode (h1 :: h2 :: rest) n (decide (mode = .encodeQueryComponent))
    else unescapeCheck mode (h1 :: h2 :: rest) n hasPlus
  | c :: rest, n, hasPlus =>
    if c.val = 0x25 then .error (c :: rest)
    else if c.val = 0x2B then
      unescapeCheck mode rest n (decide (mode = .encodeQueryComponent))
    else unescapeCheck mode rest n hasPlus

/-- Modelled from the spec: the second loop of `unescape`, run on a string
that passed the check: `%XX` becomes the byte `XX`, `+` becomes a space in a
query component, any other byte is copied. -/
def unescapeBuild (mode : Encoding) : GoString → GoString
  | [] => []
  | c :: h1 :: h2 :: rest =>
    if c.val = 0x25 then byteOf ((unhex h1 <<< 4) ||| unhex h2) :: unescapeBuild mode rest
    else if c.val = 0x2B ∧ mode = .encodeQueryComponent then
      byteOf 0x20 :: unescapeBuild mode (h1 :: h2 :: rest)
    else c :: unescapeBuild mode (h1 :: h2 :: rest)
  | c :: rest =>
    if c.val = 0x2B ∧ mode = .encodeQueryComponent then byteOf 0x20 :: unescapeBuild mode rest
    else c :: unescapeBuild mode rest

/-- Modelled from the spec: the function `unescape` of `net/url`; an error
carries the malformed escape. -/
def unescape (s : GoString) (mode : Encoding) : Except GoString GoString :=
  match unescapeCheck mode s 0 false with
  | .error e => .error e
  | .ok (n, hasPlus) => if n = 0 ∧ hasPlus = false then .ok s else .ok (unescapeBuild mode s)

/-- Modelled from the spec: function `url.QueryEscape`. -/
def QueryEscape (s : GoString) : GoString := escape s .encodeQueryComponent

/-- Modelled from the spec: function `url.PathEscape`. -/
def PathEscape (s : GoString) : GoString := escape s .encodePathSegment

/-- Modelled from the spec: the text of an `url.EscapeError`, the malformed
escape between double quotes (what `strconv.Quote` gives for printable ASCII
other than the double quote and the backslash). -/
def escapeErrorText (e : GoString) : GoString :=
  str "invalid URL escape " ++ [byteOf 0x22] ++ e ++ [byteOf 0x22]

/-- Modelled from the spec: function `url.QueryUnescape`. -/
def QueryUnescape (s : GoString) : Except GoString GoString :=
  match unescape s .encodeQueryComponent with
  | .error e => .error (escapeErrorText e)
  | .ok t => .ok t

/-- Modelled from the spec: function `url.PathUnescape`. -/
def PathUnescape (s : GoString) : Except GoString GoString :=
  match unescape s .encodePathSegment with
  | .error e => .error (escapeErrorText e)
  | .ok t => .ok t

/-- An instance of the library record whose URL functions are the modelled
ones; its JSON and HTML functions are those of `sampleLib`. -/
def urlLib : StdLib where
  JSON := sampleLib.JSON
  jsonUnmarshal := sampleLib.jsonUnmarshal
  jsonMarshalIndent := sampleLib.jsonMarshalIndent
  jsonMarshal := sampleLib.jsonMarshal
  queryEscape := QueryEscape
  queryUnescape := QueryUnescape
  pathEscape := PathEscape
  pathUnescape := PathUnescape
  htmlEscapeString := sampleLib.htmlEscapeString
  htmlUnescapeString := sampleLib.htmlUnescapeString
  jsonUnmarshal_null := sampleLib.jsonUnmarshal_null
  jsonUnmarshal_bad := sampleLib.jsonUnmarshal_bad

/-- The URL functions of a library record are the modelled ones: the two
escaping functions are `escape`, and the two unescaping functions return what
`unescape` returns whenever it returns without error. -/
structure GoURL (lib : StdLib) : Prop where
  queryEscape : ∀ s, lib.queryEscape s = escape s .encodeQueryComponent
  pathEscape : ∀ s, lib.pathEscape s = escape s .encodePathSegment
  queryUnescape : ∀ s t, unescape s .encodeQueryComponent = .ok t → lib.queryUnescape s = .ok t
  pathUnescape : ∀ s t, unescape s .encodePathSegment = .ok t → lib.pathUnescape s = .ok t

/-! ## Bit operations as arithmetic -/

theorem and3F (x : Nat) : x &&& 0x3F = x % 64 := Nat.and_pow_two_sub_one_eq_mod x 6
theorem and1F (x : Nat) : x &&& 0x1F = x % 32 := Nat.and_pow_two_sub_one_eq_mod x 5
theorem and0F (x : Nat) : x &&& 0x0F = x % 16 := Nat.and_pow_two_sub_one_eq_mod x 4
theorem and07 (x : Nat) : x &&& 0x07 = x % 8 := Nat.and_pow_two_sub_one_eq_mod x 3
theorem or80 (y : Nat) (h : y < 128) : 0x80 ||| y = 128 + y := by
  have := Nat.mul_add_lt_is_or (i := 7) (b := y) h 1
  simpa using this.symm
theorem orC0 (y : Nat) (h : y < 64) : 0xC0 ||| y = 192 + y := by
  have := Nat.mul_add_lt_is_or (i := 6) (b := y) h 3
  simpa using this.symm
theorem orE0 (y : Nat) (h : y < 32) : 0xE0 ||| y = 224 + y := by
  have := Nat.mul_add_lt_is_or (i := 5) (b := y) h 7
  simpa using this.symm
theorem orF0 (y : Nat) (h : y < 16) : 0xF0 ||| y = 240 + y := by
  have := Nat.mul_add_lt_is_or (i := 4) (b := y) h 15
  simpa using this.symm
theorem shl_or (a b k : Nat) (h : b < 2 ^ k) : (a <<< k) ||| b = a * 2 ^ k + b := by
  rw [Nat.shiftLeft_eq, Nat.mul_comm, ← Nat.mul_add_lt_is_or h]

/-! ## The decode loop as a forward pass -/

theorem appendRune_arith (r : Nat) : appendRune r =
    if r ≤ 0x7F then [byteOf r]
    else if r ≤ 0x7FF then [byteOf (192 + r / 64), byteOf (128 + r % 64)]
    else if r > MaxRune ∨ (0xD800 ≤ r ∧ r ≤ 0xDFFF) then [byteOf 0xEF, byteOf 0xBF, byteOf 0xBD]
    else if r ≤ 0xFFFF then
      [byteOf (224 + r / 4096), byteOf (128 + r / 64 % 64), byteOf (128 + r % 64)]
    else [byteOf (240 + r / 262144), byteOf (128 + r / 4096 % 64), byteOf (128 + r / 64 % 64),
      byteOf (128 + r % 64)] := by
  unfold appendRune
  have h64 : ∀ x : Nat, x % 64 < 128 := fun x => by omega
  simp only [and3F, Nat.shiftRight_eq_div_pow, or80 _ (h64 _)]
  split
  · rfl
  split
  · rename_i h1 h2
    rw [orC0 _ (by omega)]
  split
  · simp [RuneError, byteOf]
  split
  · rw [orE0 _ (by omega)]
  · rename_i h1 h2 h3 h4
    simp only [MaxRune, not_or, not_lt] at h3
    rw [orF0 _ (by omega)]

theorem str_bu : str "\\u" = [byteOf 0x5C, byteOf 0x75] := by decide

theorem slice_ok (s : GoString) (lo hi : Nat) (h1 : lo ≤ hi) (h2 : hi ≤ s.length) :
    slice s lo hi = .ok ((s.drop lo).take (hi - lo)) := by
  simp [slice, h1, h2]

theorem appendRune_shape (r : Nat) :
    ∃ e0 et, appendRune r = e0 :: et ∧ (∀ b ∈ et, 128 ≤ b.val) ∧ et.length ≤ 3 := by
  rw [appendRune_arith]
  split
  · exact ⟨_, _, rfl, by simp, by simp⟩
  split
  · exact ⟨_, _, rfl, by simp [byteOf]; omega, by simp⟩
  split
  · exact ⟨_, _, rfl, by simp [byteOf]; decide, by simp⟩
  split
  · exact ⟨_, _, rfl, by simp [byteOf]; omega, by simp⟩
  · exact ⟨_, _, rfl, by simp [byteOf]; omega, by simp⟩

theorem encodeRune_shape (r : Int) :
    ∃ e0 et, encodeRune r = e0 :: et ∧ (∀ b ∈ et, 128 ≤ b.val) ∧ et.length ≤ 3 := by
  unfold encodeRune
  split <;> exact appendRune_shape _

theorem decodePass_cons_ne (c : Byte) (t : GoString) (hc : c ≠ byteOf 0x5C) :
    decodePass (c :: t) = c :: decodePass t := by
  rcases t with _ | ⟨u, _ | ⟨h0, _ | ⟨h1, _ | ⟨h2, _ | ⟨h3, rest⟩⟩⟩⟩⟩ <;>
    simp [decodePass, str_bu, hc]

theorem decodePass_append_hi (l t : GoString) (hl : ∀ b ∈ l, 128 ≤ b.val) :
    decodePass (l ++ t) = l ++ decodePass t := by
  induction l with
  | nil => rfl
  | cons b l ih =>
    have hb : b ≠ byteOf 0x5C := by
      intro h
      have := hl b (by simp)
      rw [h] at this
      exact absurd this (by decide)
    rw [List.cons_append, decodePass_cons_ne _ _ hb, ih (fun x hx => hl x (by simp [hx]))]
    rfl

theorem decodePass_short (s : GoString) (h : s.length < 6) : decodePass s = s := by
  rcases s with _ | ⟨c, _ | ⟨u, _ | ⟨h0, _ | ⟨h1, _ | ⟨h2, _ | ⟨h3, rest⟩⟩⟩⟩⟩⟩
  all_goals first
    | (simp at h; omega)
    | simp [decodePass]

theorem unicodeDecodeLoop_eq (fuel : Nat) : ∀ (pre suf : GoString), suf.length ≤ fuel + 5 →
    unicodeDecodeLoop fuel (pre ++ suf) pre.length = .ok (pre ++ decodePass suf) := by
  induction fuel with
  | zero =>
    intro pre suf h
    have h1 : ¬ (pre.length + 5 < (pre ++ suf).length) := by simp; omega
    simp only [unicodeDecodeLoop, h1, if_false]
    rw [decodePass_short suf (by omega)]
  | succ fuel ih =>
    intro pre suf h
    by_cases hlen : suf.length < 6
    · have h1 : ¬ (pre.length + 5 < (pre ++ suf).length) := by simp; omega
      simp only [unicodeDecodeLoop, h1, if_false]
      rw [decodePass_short suf hlen]
    · obtain ⟨c, u, h0, h1, h2, h3, rest, rfl⟩ :
          ∃ c u h0 h1 h2 h3 rest, suf = c :: u :: h0 :: h1 :: h2 :: h3 :: rest := by
        rcases suf with _ | ⟨c, _ | ⟨u, _ | ⟨h0, _ | ⟨h1, _ | ⟨h2, _ | ⟨h3, rest⟩⟩⟩⟩⟩⟩
        all_goals first
          | (simp at hlen; done)
          | exact ⟨_, _, _, _, _, _, _, rfl⟩
      have hc : pre.length + 5 < (pre ++ c :: u :: h0 :: h1 :: h2 :: h3 :: rest).length := by
        simp
      have hnext : unicodeDecodeLoop fuel (pre ++ c :: u :: h0 :: h1 :: h2 :: h3 :: rest)
          (pre.length + 1) = .ok (pre ++ c :: decodePass (u :: h0 :: h1 :: h2 :: h3 :: rest)) := by
        have := ih (pre ++ [c]) (u :: h0 :: h1 :: h2 :: h3 :: rest) (by simp at h ⊢; omega)
        simpa using this
      have s1 : slice (pre ++ c :: u :: h0 :: h1 :: h2 :: h3 :: rest) pre.length (pre.length + 2)
          = .ok [c, u] := by
        rw [slice_ok _ _ _ (by omega) (by simp)]; simp
      have s2 : slice (pre ++ c :: u :: h0 :: h1 :: h2 :: h3 :: rest) (pre.length + 2)
          (pre.length + 6) = .ok [h0, h1, h2, h3] := by
        rw [slice_ok _ _ _ (by omega) (by simp)]; simp
      have s3 : slice (pre ++ c :: u :: h0 :: h1 :: h2 :: h3 :: rest) 0 pre.length = .ok pre := by
        rw [slice_ok _ _ _ (by omega) (by simp)]; simp
      have s4 : slice (pre ++ c :: u :: h0 :: h1 :: h2 :: h3 :: rest) (pre.length + 6)
          (pre ++ c :: u :: h0 :: h1 :: h2 :: h3 :: rest).length = .ok rest := by
        rw [slice_ok _ _ _ (by simp) (by simp)]; simp
        omega
      rw [unicodeDecodeLoop, if_pos hc, s1]
      simp only []
      by_cases hm : [c, u] = str "\\u"
      · rw [if_pos hm, s2]
        simp only []
        cases hp : parseInt16 [h0, h1, h2, h3] with
        | none =>
          simp only []
          rw [hnext]
          simp [decodePass, hm, hp]
        | some cp =>
          simp only [s3, s4]
          obtain ⟨e0, et, he, hhi, hlen3⟩ := encodeRune_shape cp
          have := ih (pre ++ [e0]) (et ++ rest) (by simp at h ⊢; omega)
          rw [decodePass_append_hi _ _ hhi] at this
          simp only [decodePass, hm, hp, if_true, he]
          simpa using this
      · rw [if_neg hm, hnext]
        simp [decodePass, hm]

/-! ## The dispatcher -/

theorem processBase64_response (request : ToolRequest) :
    ∃ r, processBase64 request = .response r ∧ (r.Error = [] ∨ r.Output = []) := by
  unfold processBase64
  simp only []
  split_ifs
  · exact ⟨_, rfl, Or.inl rfl⟩
  · split
    · exact ⟨_, rfl, Or.inr rfl⟩
    · exact ⟨_, rfl, Or.inl rfl⟩
  · exact ⟨_, rfl, Or.inl rfl⟩
  · split
    · exact ⟨_, rfl, Or.inr rfl⟩
    · exact ⟨_, rfl, Or.inl rfl⟩
  · exact ⟨_, rfl, Or.inr rfl⟩

theorem processJSON_response (lib : StdLib) (request : ToolRequest) :
    ∃ r, processJSON lib request = .response r ∧ (r.Error = [] ∨ r.Output = []) := by
  unfold processJSON
  simp only []
  split
  · exact ⟨_, rfl, Or.inr rfl⟩
  · split_ifs
    · split
      · exact ⟨_, rfl, Or.inr rfl⟩
      · exact ⟨_, rfl, Or.inl rfl⟩
    · split
      · exact ⟨_, rfl, Or.inr rfl⟩
      · exact ⟨_, rfl, Or.inl rfl⟩
    · exact ⟨_, rfl, Or.inl rfl⟩
    · exact ⟨_, rfl, Or.inr rfl⟩

theorem processURL_response (lib : StdLib) (request : ToolRequest) :
    ∃ r, processURL lib request = .response r ∧ (r.Error = [] ∨ r.Output = []) := by
  unfold processURL
  simp only []
  split_ifs
  · exact ⟨_, rfl, Or.inl rfl⟩
  · split
    · exact ⟨_, rfl, Or.inr rfl⟩
    · exact ⟨_, rfl, Or.inl rfl⟩
  · exact ⟨_, rfl, Or.inl rfl⟩
  · split
    · exact ⟨_, rfl, Or.inr rfl⟩
    · exact ⟨_, rfl, Or.inl rfl⟩
  · exact ⟨_, rfl, Or.inr rfl⟩

theorem processHTML_response (lib : StdLib) (request : ToolRequest) :
    ∃ r, processHTML lib request = .response r ∧ (r.Error = [] ∨ r.Output = []) := by
  unfold processHTML
  simp only []
  split_ifs
  · exact ⟨_, rfl, Or.inl rfl⟩
  · exact ⟨_, rfl, Or.inl rfl⟩
  · exact ⟨_, rfl, Or.inr rfl⟩

/-- The decode loop of `processUnicode`, started as the code starts it, returns
the single forward pass over the input: it neither faults nor runs out of
fuel. -/
theorem unicodeDecodeLoop_input (input : GoString) :
    unicodeDecodeLoop input.length input 0 = .ok (decodePass input) := by
  have := unicodeDecodeLoop_eq input.length [] input (by omega)
  simpa using this

theorem processUnicode_response (request : ToolRequest) :
    ∃ r, processUnicode request = .response r ∧ (r.Error = [] ∨ r.Output = []) := by
  unfold processUnicode
  simp only [unicodeDecodeLoop_input]
  split_ifs
  · exact ⟨_, rfl, Or.inl rfl⟩
  · exact ⟨_, rfl, Or.inl rfl⟩
  · exact ⟨_, rfl, Or.inl rfl⟩
  · exact ⟨_, rfl, Or.inr rfl⟩

theorem ProcessTool_response (lib : StdLib) (toolID : GoString) (request : ToolRequest)
    (h : toolID ∈ knownTools) :
    ∃ r, ProcessTool lib toolID request = .response r ∧ (r.Error = [] ∨ r.Output = []) := by
  simp only [knownTools, List.mem_cons, List.mem_singleton, List.not_mem_nil, or_false] at h
  unfold ProcessTool
  rcases h with rfl | rfl | rfl | rfl | rfl
  · rw [if_pos rfl]; exact processBase64_response _
  · rw [if_neg (by decide), if_pos rfl]; exact processJSON_response _ _
  · rw [if_neg (by decide), if_neg (by decide), if_pos rfl]; exact processURL_response _ _
  · rw [if_neg (by decide), if_neg (by decide), if_neg (by decide), if_pos rfl]
    exact processHTML_response _ _
  · rw [if_neg (by decide), if_neg (by decide), if_neg (by decide), if_neg (by decide),
      if_pos rfl]
    exact processUnicode_response _

theorem ProcessTool_unknown (lib : StdLib) (toolID : GoString) (request : ToolRequest)
    (h : toolID ∉ knownTools) :
    ProcessTool lib toolID request = .error (str "unsupported tool: " ++ toolID) := by
  simp only [knownTools, List.mem_cons, List.mem_singleton, List.not_mem_nil, or_false,
    not_or] at h
  unfold ProcessTool
  rw [if_neg h.1, if_neg h.2.1, if_neg h.2.2.1, if_neg h.2.2.2.1, if_neg h.2.2.2.2]

/-- C1. `ProcessTool` returns the dispatch error (an error and no response)
exactly when `toolID` is not one of the five identifiers `base64`, `json`,
`url`, `html`, `unicode`; for each of the five it returns a response and a nil
error, whatever the input and the settings; and for `nonexistent` it returns
the dispatch error. -/
theorem C1_dispatch_error_iff_unknown_tool (lib : StdLib) (toolID : GoString)
    (request : ToolRequest) :
    ((∃ msg, ProcessTool lib toolID request = .error msg) ↔ toolID ∉ knownTools) ∧
    ((∃ r, ProcessTool lib toolID request = .response r) ↔ toolID ∈ knownTools) ∧
    ProcessTool lib (str "nonexistent") request
      = .error (str "unsupported tool: nonexistent") := by
  refine ⟨?_, ?_, ?_⟩
  · constructor
    · rintro ⟨msg, hmsg⟩ hk
      obtain ⟨r, hr, _⟩ := ProcessTool_response lib toolID request hk
      rw [hr] at hmsg
      exact CallResult.noConfusion hmsg
    · intro hk
      exact ⟨_, ProcessTool_unknown lib toolID request hk⟩
  · constructor
    · rintro ⟨r, hr⟩
      by_contra hk
      rw [ProcessTool_unknown lib toolID request hk] at hr
      exact CallResult.noConfusion hr
    · intro hk
      obtain ⟨r, hr, _⟩ := ProcessTool_response lib toolID request hk
      exact ⟨r, hr⟩
  · rw [ProcessTool_unknown lib _ request (by decide)]
    rfl

/-! ## Mode resolution -/

theorem resolveMode_string (dflt input : GoString) (settings : SettingsMap) (m : GoString)
    (hm : settings (str "mode") = some (.string m)) :
    resolveMode dflt ⟨input, some settings⟩ = m := by
  simp [resolveMode, hm, assertString]

theorem resolveMode_nil (dflt input : GoString) : resolveMode dflt ⟨input, none⟩ = dflt := rfl

theorem resolveMode_not_string (dflt input : GoString) (settings : SettingsMap)
    (hm : ∀ m, settings (str "mode") ≠ some (.string m)) :
    resolveMode dflt ⟨input, some settings⟩ = dflt := by
  have : assertString (settings (str "mode")) = none := by
    cases h : settings (str "mode") with
    | none => rfl
    | some v =>
      cases v with
      | string s => exact absurd h (hm s)
      | _ => rfl
  simp [resolveMode, this]

theorem modeSettings_mode (m : GoString) : modeSettings m (str "mode") = some (.string m) := by
  simp [modeSettings]

/-- A transform reads its request through the input and the resolved mode
only. -/
theorem ProcessTool_congr (lib : StdLib) (toolID : GoString) (r1 r2 : ToolRequest)
    (hk : toolID ∈ knownTools) (hin : r1.Input = r2.Input)
    (hmode : resolveMode (defaultMode toolID) r1 = resolveMode (defaultMode toolID) r2) :
    ProcessTool lib toolID r1 = ProcessTool lib toolID r2 := by
  simp only [knownTools, List.mem_cons, List.mem_singleton, List.not_mem_nil, or_false] at hk
  unfold ProcessTool
  rcases hk with rfl | rfl | rfl | rfl | rfl
  · rw [if_pos rfl, if_pos rfl]
    have hd : defaultMode (str "base64") = str "encode" := by decide
    rw [hd] at hmode
    simp only [processBase64, hin, hmode]
  · rw [if_neg (by decide), if_pos rfl, if_neg (by decide), if_pos rfl]
    have hd : defaultMode (str "json") = str "format" := by decide
    rw [hd] at hmode
    simp only [processJSON, hin, hmode]
  · rw [if_neg (by decide), if_neg (by decide), if_pos rfl, if_neg (by decide),
      if_neg (by decide), if_pos rfl]
    have hd : defaultMode (str "url") = str "encode" := by decide
    rw [hd] at hmode
    simp only [processURL, hin, hmode]
  · rw [if_neg (by decide), if_neg (by decide), if_neg (by decide), if_pos rfl,
      if_neg (by decide), if_neg (by decide), if_neg (by decide), if_pos rfl]
    have hd : defaultMode (str "html") = str "encode" := by decide
    rw [hd] at hmode
    simp only [processHTML, hin, hmode]
  · rw [if_neg (by decide), if_neg (by decide), if_neg (by decide), if_neg (by decide),
      if_pos rfl, if_neg (by decide), if_neg (by decide), if_neg (by decide),
      if_neg (by decide), if_pos rfl]
    have hd : defaultMode (str "unicode") = str "encode" := by decide
    rw [hd] at hmode
    simp only [processUnicode, hin, hmode]

/-- With a mode outside the cases of its `switch`, a transform other than the
JSON one answers `Unsupported mode`, and the JSON one does so once the input
has parsed. -/
theorem ProcessTool_unsupported_mode (lib : StdLib) (toolID : GoString) (request : ToolRequest)
    (hk : toolID ∈ knownTools)
    (hnot : resolveMode (defaultMode toolID) request ∉ recognisedModes toolID)
    (hjson : toolID = str "json" → ∃ v, lib.jsonUnmarshal request.Input = .ok v) :
    ProcessTool lib toolID request = .response
      ⟨[], str "Unsupported mode: " ++ resolveMode (defaultMode toolID) request⟩ := by
  simp only [knownTools, List.mem_cons, List.mem_singleton, List.not_mem_nil, or_false] at hk
  unfold ProcessTool
  rcases hk with rfl | rfl | rfl | rfl | rfl
  · have hd : defaultMode (str "base64") = str "encode" := by decide
    have hr : recognisedModes (str "base64")
        = [str "encode", str "decode", str "url-encode", str "url-decode"] := by decide
    rw [hd, hr] at hnot
    simp only [List.mem_cons, List.mem_singleton, List.not_mem_nil, or_false, not_or] at hnot
    rw [if_pos rfl, hd]
    simp only [processBase64, if_neg hnot.1, if_neg hnot.2.1, if_neg hnot.2.2.1,
      if_neg hnot.2.2.2]
  · have hd : defaultMode (str "json") = str "format" := by decide
    have hr : recognisedModes (str "json")
        = [str "format", str "prettify", str "minify", str "validate"] := by decide
    rw [hd, hr] at hnot
    simp only [List.mem_cons, List.mem_singleton, List.not_mem_nil, or_false, not_or] at hnot
    obtain ⟨v, hv⟩ := hjson rfl
    rw [if_neg (by decide), if_pos rfl, hd]
    simp only [processJSON, hv, if_neg hnot.2.2.1, if_neg hnot.2.2.2, hnot.1, hnot.2.1,
      or_self, if_false]
  · have hd : defaultMode (str "url") = str "encode" := by decide
    have hr : recognisedModes (str "url")
        = [str "encode", str "decode", str "encode-component", str "decode-component"] := by
      decide
    rw [hd, hr] at hnot
    simp only [List.mem_cons, List.mem_singleton, List.not_mem_nil, or_false, not_or] at hnot
    rw [if_neg (by decide), if_neg (by decide), if_pos rfl, hd]
    simp only [processURL, if_neg hnot.1, if_neg hnot.2.1, if_neg hnot.2.2.1,
      if_neg hnot.2.2.2]
  · have hd : defaultMode (str "html") = str "encode" := by decide
    have hr : recognisedModes (str "html") = [str "encode", str "decode"] := by decide
    rw [hd, hr] at hnot
    simp only [List.mem_cons, List.mem_singleton, List.not_mem_nil, or_false, not_or] at hnot
    rw [if_neg (by decide), if_neg (by decide), if_neg (by decide), if_pos rfl, hd]
    simp only [processHTML, if_neg hnot.1, if_neg hnot.2]
  · have hd : defaultMode (str "unicode") = str "encode" := by decide
    have hr : recognisedModes (str "unicode") = [str "encode", str "decode", str "info"] := by
      decide
    rw [hd, hr] at hnot
    simp only [List.mem_cons, List.mem_singleton, List.not_mem_nil, or_false, not_or] at hnot
    rw [if_neg (by decide), if_neg (by decide), if_neg (by decide), if_neg (by decide),
      if_pos rfl, hd]
    simp only [processUnicode, if_neg hnot.1, if_neg hnot.2.1, if_neg hnot.2.2]

/-- The JSON transform parses its input before it looks at the mode. -/
theorem processJSON_invalid (lib : StdLib) (request : ToolRequest) (e : GoString)
    (he : lib.jsonUnmarshal request.Input = .error e) :
    ProcessTool lib (str "json") request = .response ⟨[], str "Invalid JSON: " ++ e⟩ := by
  unfold ProcessTool
  rw [if_neg (by decide), if_pos rfl]
  simp only [processJSON, he]

/-- C2, as the code has it. For base64, url, html and unicode, and for json
when the input parses as JSON: if `settings["mode"]` is a string outside the
tool's recognised modes, the response has an empty Output and the Error
`Unsupported mode: ` followed by that string unchanged. For json with an
input that does not parse, the response is the `Invalid JSON: ` error of the
parser instead, whatever the mode. -/
theorem C2_unsupported_mode_echoed (lib : StdLib) (toolID input : GoString)
    (settings : SettingsMap) (m : GoString) (hk : toolID ∈ knownTools)
    (hm : settings (str "mode") = some (.string m)) (hnot : m ∉ recognisedModes toolID) :
    ((toolID = str "json" → ∃ v, lib.jsonUnmarshal input = .ok v) →
      ProcessTool lib toolID ⟨input, some settings⟩
        = .response ⟨[], str "Unsupported mode: " ++ m⟩) ∧
    (∀ e, toolID = str "json" → lib.jsonUnmarshal input = .error e →
      ProcessTool lib toolID ⟨input, some settings⟩
        = .response ⟨[], str "Invalid JSON: " ++ e⟩) := by
  constructor
  · intro hjson
    have := ProcessTool_unsupported_mode lib toolID ⟨input, some settings⟩ hk
      (by rw [resolveMode_string _ _ _ _ hm]; exact hnot) hjson
    rw [resolveMode_string _ _ _ _ hm] at this
    exact this
  · rintro e rfl he
    exact processJSON_invalid lib _ e he

/-- C2, witness: the JSON tool on the input `null` with the mode `bogus`. -/
theorem C2_unsupported_mode_echoed_witness :
    ((str "json" = str "json" → ∃ v, sampleLib.jsonUnmarshal (str "null") = .ok v) →
      ProcessTool sampleLib (str "json") ⟨str "null", some (modeSettings (str "bogus"))⟩
        = .response ⟨[], str "Unsupported mode: " ++ str "bogus"⟩) ∧
    (∀ e, str "json" = str "json" → sampleLib.jsonUnmarshal (str "null") = .error e →
      ProcessTool sampleLib (str "json") ⟨str "null", some (modeSettings (str "bogus"))⟩
        = .response ⟨[], str "Invalid JSON: " ++ e⟩) :=
  C2_unsupported_mode_echoed sampleLib (str "json") (str "null") (modeSettings (str "bogus"))
    (str "bogus") (by decide) (modeSettings_mode _) (by decide)

/-- C2, counterexample: the JSON tool on the input `{"a":}` with the
unrecognised mode `bogus` answers `Invalid JSON: ...`, not
`Unsupported mode: bogus`; and so it does with every library, since the input
does not parse. -/
theorem C2_counterexample_json_invalid_input :
    str "json" ∈ knownTools ∧ str "bogus" ∉ recognisedModes (str "json") ∧
    ProcessTool sampleLib (str "json")
        ⟨str "\x7b\"a\":\x7d", some (modeSettings (str "bogus"))⟩
      = .response ⟨[], str "Invalid JSON: invalid character \x27\x7d\x27 looking for beginning of value"⟩ ∧
    (∀ lib : StdLib, ProcessTool lib (str "json")
        ⟨str "\x7b\"a\":\x7d", some (modeSettings (str "bogus"))⟩
      ≠ .response ⟨[], str "Unsupported mode: " ++ str "bogus"⟩) := by
  refine ⟨by decide, by decide, ?_, ?_⟩
  · have he : sampleLib.jsonUnmarshal (str "\x7b\"a\":\x7d")
        = .error (str "invalid character \x27\x7d\x27 looking for beginning of value") :=
      rfl
    exact processJSON_invalid sampleLib
      ⟨str "\x7b\"a\":\x7d", some (modeSettings (str "bogus"))⟩ _ he
  · intro lib h
    obtain ⟨e, he⟩ := lib.jsonUnmarshal_bad
    rw [processJSON_invalid lib ⟨str "\x7b\"a\":\x7d", some (modeSettings (str "bogus"))⟩ e he]
      at h
    have h2 : (str "Invalid JSON: " ++ e).take 1 = (str "Unsupported mode: " ++ str "bogus").take 1 := by
      injection h with h
      injection h with _ h
      rw [h]
    have h3 : (str "Invalid JSON: " ++ e).take 1 = [byteOf 0x49] := rfl
    have h4 : (str "Unsupported mode: " ++ str "bogus").take 1 = [byteOf 0x55] := rfl
    rw [h3, h4] at h2
    exact absurd h2 (by decide)

/-- C3. For each of the five tools and every input: a request without
settings, and a request whose settings have no string under `"mode"` (no such
key, or a value of another type), get exactly the response of the request with
settings `{"mode": d}`, `d` being `format` for json and `encode` for the other
tools; and two settings maps with the same string under `"mode"` get the same
response. -/
theorem C3_mode_defaults_and_dependence (lib : StdLib) (toolID input : GoString)
    (hk : toolID ∈ knownTools) :
    (∃ r, ProcessTool lib toolID ⟨input, some (modeSettings (defaultMode toolID))⟩
      = .response r) ∧
    ProcessTool lib toolID ⟨input, none⟩
      = ProcessTool lib toolID ⟨input, some (modeSettings (defaultMode toolID))⟩ ∧
    (∀ settings : SettingsMap, (∀ m, settings (str "mode") ≠ some (.string m)) →
      ProcessTool lib toolID ⟨input, some settings⟩
        = ProcessTool lib toolID ⟨input, some (modeSettings (defaultMode toolID))⟩) ∧
    (∀ (s1 s2 : SettingsMap) (m : GoString), s1 (str "mode") = some (.string m) →
      s2 (str "mode") = some (.string m) →
      ProcessTool lib toolID ⟨input, some s1⟩ = ProcessTool lib toolID ⟨input, some s2⟩) := by
  refine ⟨?_, ?_, ?_, ?_⟩
  · obtain ⟨r, hr, _⟩ := ProcessTool_response lib toolID
      ⟨input, some (modeSettings (defaultMode toolID))⟩ hk
    exact ⟨r, hr⟩
  · refine ProcessTool_congr lib toolID ⟨input, none⟩ ⟨input, some _⟩ hk rfl ?_
    rw [resolveMode_nil, resolveMode_string _ _ _ _ (modeSettings_mode _)]
  · intro settings hs
    refine ProcessTool_congr lib toolID ⟨input, some _⟩ ⟨input, some _⟩ hk rfl ?_
    rw [resolveMode_not_string _ _ _ hs, resolveMode_string _ _ _ _ (modeSettings_mode _)]
  · intro s1 s2 m h1 h2
    refine ProcessTool_congr lib toolID ⟨input, some _⟩ ⟨input, some _⟩ hk rfl ?_
    rw [resolveMode_string _ _ _ _ h1, resolveMode_string _ _ _ _ h2]

/-- C3, witness: the JSON tool on the input `null`. -/
theorem C3_mode_defaults_and_dependence_witness :
    (∃ r, ProcessTool sampleLib (str "json")
      ⟨str "null", some (modeSettings (defaultMode (str "json")))⟩ = .response r) ∧
    ProcessTool sampleLib (str "json") ⟨str "null", none⟩
      = ProcessTool sampleLib (str "json")
          ⟨str "null", some (modeSettings (defaultMode (str "json")))⟩ ∧
    (∀ settings : SettingsMap, (∀ m, settings (str "mode") ≠ some (.string m)) →
      ProcessTool sampleLib (str "json") ⟨str "null", some settings⟩
        = ProcessTool sampleLib (str "json")
            ⟨str "null", some (modeSettings (defaultMode (str "json")))⟩) ∧
    (∀ (s1 s2 : SettingsMap) (m : GoString), s1 (str "mode") = some (.string m) →
      s2 (str "mode") = some (.string m) →
      ProcessTool sampleLib (str "json") ⟨str "null", some s1⟩
        = ProcessTool sampleLib (str "json") ⟨str "null", some s2⟩) :=
  C3_mode_defaults_and_dependence sampleLib (str "json") (str "null") (by decide)

/-- C4. For every known tool, every input and every settings map,
`ProcessTool` returns a response in which Output and Error are never both
non-empty: when Error is non-empty, Output is the empty string. -/
theorem C4_error_excludes_output (lib : StdLib) (toolID : GoString) (request : ToolRequest)
    (hk : toolID ∈ knownTools) :
    ∃ r, ProcessTool lib toolID request = .response r ∧
      ¬ (r.Output ≠ [] ∧ r.Error ≠ []) ∧ (r.Error ≠ [] → r.Output = []) := by
  obtain ⟨r, hr, h⟩ := ProcessTool_response lib toolID request hk
  refine ⟨r, hr, ?_, ?_⟩
  · rintro ⟨h1, h2⟩
    rcases h with h | h
    · exact h2 h
    · exact h1 h
  · intro h2
    rcases h with h | h
    · exact absurd h h2
    · exact h

/-- C4, witness: the base64 tool decoding the malformed input `!`. -/
theorem C4_error_excludes_output_witness :
    ∃ r, ProcessTool sampleLib (str "base64") ⟨str "!", some (modeSettings (str "decode"))⟩
        = .response r ∧
      ¬ (r.Output ≠ [] ∧ r.Error ≠ []) ∧ (r.Error ≠ [] → r.Output = []) :=
  C4_error_excludes_output sampleLib (str "base64")
    ⟨str "!", some (modeSettings (str "decode"))⟩ (by decide)

/-! ## Base64 -/

theorem lor_eq_add (k a y x : Nat) (hy : y < 2 ^ k) (hx : x = 2 ^ k * a) : x ||| y = x + y := by
  rw [hx, Nat.mul_add_lt_is_or hy]

theorem encodeVal3 (b0 b1 b2 : Byte) :
    (b0.val <<< 16) ||| (b1.val <<< 8) ||| b2.val = b0.val * 65536 + b1.val * 256 + b2.val := by
  have h0 := b0.isLt
  have h1 := b1.isLt
  have h2 := b2.isLt
  rw [Nat.shiftLeft_eq, Nat.shiftLeft_eq]
  rw [lor_eq_add 16 b0.val (b1.val * 2 ^ 8) _ (by omega) (by omega)]
  rw [lor_eq_add 8 (b0.val * 256 + b1.val) b2.val _ (by omega) (by omega)]

theorem encodeVal2 (b0 b1 : Byte) :
    (b0.val <<< 16) ||| (b1.val <<< 8) = b0.val * 65536 + b1.val * 256 := by
  have h0 := b0.isLt
  have h1 := b1.isLt
  rw [Nat.shiftLeft_eq, Nat.shiftLeft_eq]
  rw [lor_eq_add 16 b0.val (b1.val * 2 ^ 8) _ (by omega) (by omega)]

theorem decodeVal (s0 s1 s2 s3 : Nat) (h1 : s1 < 64) (h2 : s2 < 64) (h3 : s3 < 64) :
    (s0 <<< 18) ||| (s1 <<< 12) ||| (s2 <<< 6) ||| s3
      = s0 * 262144 + s1 * 4096 + s2 * 64 + s3 := by
  rw [Nat.shiftLeft_eq, Nat.shiftLeft_eq, Nat.shiftLeft_eq]
  rw [lor_eq_add 18 s0 (s1 * 2 ^ 12) _ (by omega) (by omega)]
  rw [lor_eq_add 12 (s0 * 64 + s1) (s2 * 2 ^ 6) _ (by omega) (by omega)]
  rw [lor_eq_add 6 (s0 * 4096 + s1 * 64 + s2) s3 _ (by omega) (by omega)]

theorem assemble_four (b0 b1 b2 : Byte) :
    assemble [((b0.val * 65536 + b1.val * 256 + b2.val) >>> 18) &&& 0x3F,
      ((b0.val * 65536 + b1.val * 256 + b2.val) >>> 12) &&& 0x3F,
      ((b0.val * 65536 + b1.val * 256 + b2.val) >>> 6) &&& 0x3F,
      (b0.val * 65536 + b1.val * 256 + b2.val) &&& 0x3F] 4 = [b0, b1, b2] := by
  have h0 := b0.isLt
  have h1 := b1.isLt
  have h2 := b2.isLt
  simp only [assemble, List.getD_cons_zero, List.getD_cons_succ, and3F,
    Nat.shiftRight_eq_div_pow]
  rw [decodeVal _ _ _ _ (Nat.mod_lt _ (by decide)) (Nat.mod_lt _ (by decide))
    (Nat.mod_lt _ (by decide))]
  simp only [List.take, byteOf]
  refine congrArg₂ _ (Fin.ext ?_) (congrArg₂ _ (Fin.ext ?_) (congrArg₂ _ (Fin.ext ?_) rfl))
  all_goals simp only []; omega

theorem assemble_three (b0 b1 : Byte) :
    assemble [((b0.val * 65536 + b1.val * 256) >>> 18) &&& 0x3F,
      ((b0.val * 65536 + b1.val * 256) >>> 12) &&& 0x3F,
      ((b0.val * 65536 + b1.val * 256) >>> 6) &&& 0x3F] 3 = [b0, b1] := by
  have h0 := b0.isLt
  have h1 := b1.isLt
  simp only [assemble, List.getD_cons_zero, List.getD_cons_succ, List.getD_nil, and3F,
    Nat.shiftRight_eq_div_pow]
  rw [decodeVal _ _ _ _ (Nat.mod_lt _ (by decide)) (Nat.mod_lt _ (by decide)) (by decide)]
  simp only [List.take, byteOf]
  refine congrArg₂ _ (Fin.ext ?_) (congrArg₂ _ (Fin.ext ?_) rfl)
  all_goals simp only []; omega

theorem assemble_two (b0 : Byte) :
    assemble [((b0.val * 65536) >>> 18) &&& 0x3F, ((b0.val * 65536) >>> 12) &&& 0x3F] 2
      = [b0] := by
  have h0 := b0.isLt
  simp only [assemble, List.getD_cons_zero, List.getD_cons_succ, List.getD_nil, and3F,
    Nat.shiftRight_eq_div_pow]
  rw [decodeVal _ _ _ _ (Nat.mod_lt _ (by decide)) (by decide) (by decide)]
  simp only [List.take, byteOf]
  refine congrArg₂ _ (Fin.ext ?_) rfl
  simp only []; omega

set_option maxRecDepth 100000 in
theorem goodAlphabet_std : GoodAlphabet encodeStd := ⟨by decide, by decide⟩

set_option maxRecDepth 100000 in
theorem goodAlphabet_url : GoodAlphabet encodeURL := ⟨by decide, by decide⟩

theorem and3F_ne (x : Nat) : x &&& 0x3F ≠ 0xFF := by
  rw [and3F]; omega

theorem decodeMap_sextet {enc : GoString} (h : GoodAlphabet enc) (x : Nat) :
    decodeMap enc (enc.getD (x &&& 0x3F) 0) = x &&& 0x3F := by
  have := h.decode_encode ⟨x &&& 0x3F, by rw [and3F]; omega⟩
  exact this

theorem b64Decode_sextet {enc : GoString} (h : GoodAlphabet enc) (len x : Nat) (t : GoString)
    (si : Nat) (dbuf : List Nat) (acc : GoString) (hl : dbuf.length ≠ 3) :
    b64Decode enc len (enc.getD (x &&& 0x3F) 0 :: t) si dbuf acc
      = b64Decode enc len t (si + 1) (dbuf ++ [x &&& 0x3F]) acc := by
  rw [b64Decode, decodeMap_sextet h, if_pos (and3F_ne x), if_neg hl]

theorem b64Decode_sextet_last {enc : GoString} (h : GoodAlphabet enc) (len x : Nat)
    (t : GoString) (si : Nat) (dbuf : List Nat) (acc : GoString) (hl : dbuf.length = 3) :
    b64Decode enc len (enc.getD (x &&& 0x3F) 0 :: t) si dbuf acc
      = b64Decode enc len t (si + 1) [] (acc ++ assemble (dbuf ++ [x &&& 0x3F]) 4) := by
  rw [b64Decode, decodeMap_sextet h, if_pos (and3F_ne x), if_pos hl]

theorem b64Decode_pad_one {enc : GoString} (h : GoodAlphabet enc) (len si : Nat)
    (dbuf : List Nat) (acc : GoString) (hl : dbuf.length = 3) :
    b64Decode enc len [padChar] si dbuf acc = .ok (acc ++ assemble dbuf 3) := by
  have hp : ¬ (padChar.val = 0x0A ∨ padChar.val = 0x0D) := by decide
  rw [b64Decode, h.pad]
  simp [hl, skipNewlines, hp]

theorem b64Decode_pad_two {enc : GoString} (h : GoodAlphabet enc) (len si : Nat)
    (dbuf : List Nat) (acc : GoString) (hl : dbuf.length = 2) :
    b64Decode enc len [padChar, padChar] si dbuf acc = .ok (acc ++ assemble dbuf 2) := by
  have hp : ¬ (padChar.val = 0x0A ∨ padChar.val = 0x0D) := by decide
  rw [b64Decode, h.pad]
  simp [hl, skipNewlines, hp]

/-- Decoding what `b64Encode` produced gives the bytes back, for an alphabet
that decodes its own characters. -/
theorem b64Decode_encode {enc : GoString} (h : GoodAlphabet enc) (len : Nat) :
    ∀ (n : Nat) (b : GoString), b.length ≤ n → ∀ (si : Nat) (acc : GoString),
      b64Decode enc len (b64Encode enc b) si [] acc = .ok (acc ++ b) := by
  intro n
  induction n with
  | zero =>
    intro b hb si acc
    have : b = [] := List.length_eq_zero.mp (by omega)
    subst this
    simp [b64Encode, b64Decode]
  | succ n ih =>
    intro b hb si acc
    rcases b with _ | ⟨b0, _ | ⟨b1, _ | ⟨b2, rest⟩⟩⟩
    · simp [b64Encode, b64Decode]
    · simp only [b64Encode]
      rw [b64Decode_sextet h _ _ _ _ _ _ (by simp), b64Decode_sextet h _ _ _ _ _ _ (by simp),
        b64Decode_pad_two h _ _ _ _ (by simp)]
      rw [Nat.shiftLeft_eq]
      simp only [List.nil_append, List.cons_append]
      rw [show b0.val * 2 ^ 16 = b0.val * 65536 from rfl, assemble_two]
    · simp only [b64Encode, encodeVal2]
      rw [b64Decode_sextet h _ _ _ _ _ _ (by simp), b64Decode_sextet h _ _ _ _ _ _ (by simp),
        b64Decode_sextet h _ _ _ _ _ _ (by simp), b64Decode_pad_one h _ _ _ _ (by simp)]
      simp only [List.nil_append, List.cons_append]
      rw [assemble_three]
    · simp only [b64Encode, encodeVal3]
      rw [b64Decode_sextet h _ _ _ _ _ _ (by simp), b64Decode_sextet h _ _ _ _ _ _ (by simp),
        b64Decode_sextet h _ _ _ _ _ _ (by simp), b64Decode_sextet_last h _ _ _ _ _ _ (by simp)]
      simp only [List.nil_append, List.cons_append]
      rw [assemble_four, ih rest (by simp at hb; omega)]
      simp

theorem b64DecodeString_encode {enc : GoString} (h : GoodAlphabet enc) (b : GoString) :
    b64DecodeString enc (b64Encode enc b) = .ok b := by
  have := b64Decode_encode h (b64Encode enc b).length b.length b (Nat.le_refl _) 0 []
  simpa [b64DecodeString] using this

/-- C5. For every byte sequence `b`, the base64 tool in mode `encode` returns
an Output `e` with an empty Error, and in mode `decode` on `e` it returns the
Output `b` with an empty Error; the same holds for the modes `url-encode` and
`url-decode`. -/
theorem C5_base64_round_trip (lib : StdLib) (b : GoString) :
    (∃ e, ProcessTool lib (str "base64") ⟨b, some (modeSettings (str "encode"))⟩
        = .response ⟨e, []⟩ ∧
      ProcessTool lib (str "base64") ⟨e, some (modeSettings (str "decode"))⟩
        = .response ⟨b, []⟩) ∧
    (∃ e, ProcessTool lib (str "base64") ⟨b, some (modeSettings (str "url-encode"))⟩
        = .response ⟨e, []⟩ ∧
      ProcessTool lib (str "base64") ⟨e, some (modeSettings (str "url-decode"))⟩
        = .response ⟨b, []⟩) := by
  have hm : ∀ (m i : GoString), resolveMode (str "encode") ⟨i, some (modeSettings m)⟩ = m :=
    fun m i => resolveMode_string _ _ _ _ (modeSettings_mode m)
  constructor
  · refine ⟨b64Encode encodeStd b, ?_, ?_⟩
    · simp only [ProcessTool, processBase64, hm, if_true]
    · simp only [ProcessTool, processBase64, hm, if_true]
      rw [b64DecodeString_encode goodAlphabet_std, if_neg (by decide)]
  · refine ⟨b64Encode encodeURL b, ?_, ?_⟩
    · simp only [ProcessTool, processBase64, hm, if_true]
      rw [if_neg (by decide), if_neg (by decide)]
    · simp only [ProcessTool, processBase64, hm, if_true]
      rw [b64DecodeString_encode goodAlphabet_url, if_neg (by decide), if_neg (by decide),
        if_neg (by decide)]

/-! ## UTF-8: decoding what was encoded -/

theorem decodeRune_one (s0 : Byte) (rest : GoString) (h0 : s0.val < 0x80) :
    decodeRune (s0 :: rest) = (s0.val, 1) := by
  simp [decodeRune, h0]

theorem decodeRune_two (s0 s1 : Byte) (rest : GoString)
    (h0 : 0xC2 ≤ s0.val ∧ s0.val ≤ 0xDF) (h1 : 0x80 ≤ s1.val ∧ s1.val ≤ 0xBF) :
    decodeRune (s0 :: s1 :: rest) = (s0.val % 32 * 64 + s1.val % 64, 2) := by
  have hf : first s0.val = some (2, 0x80, 0xBF) := by
    unfold first
    rw [if_pos h0]
  have hn : ¬ s0.val < 0x80 := by omega
  have hr : ¬ (s1.val < 0x80 ∨ 0xBF < s1.val) := by omega
  simp only [decodeRune, hf, if_neg hn, if_neg hr, and1F, and3F]
  rw [shl_or _ _ _ (by omega)]
  simp

theorem dec3 (a b c : Nat) (hb : b < 64) (hc : c < 64) :
    (a <<< 12) ||| (b <<< 6) ||| c = a * 4096 + b * 64 + c := by
  rw [Nat.shiftLeft_eq, Nat.shiftLeft_eq]
  rw [lor_eq_add 12 a (b * 2 ^ 6) _ (by omega) (by omega)]
  rw [lor_eq_add 6 (a * 64 + b) c _ (by omega) (by omega)]

theorem decodeRune_three (s0 s1 s2 : Byte) (rest : GoString)
    (h0 : 0xE0 ≤ s0.val ∧ s0.val ≤ 0xEF) (h1 : 0x80 ≤ s1.val ∧ s1.val ≤ 0xBF)
    (hE0 : s0.val = 0xE0 → 0xA0 ≤ s1.val) (hED : s0.val = 0xED → s1.val ≤ 0x9F)
    (h2 : 0x80 ≤ s2.val ∧ s2.val ≤ 0xBF) :
    decodeRune (s0 :: s1 :: s2 :: rest)
      = (s0.val % 16 * 4096 + s1.val % 64 * 64 + s2.val % 64, 3) := by
  have hf : ∃ lo hi, first s0.val = some (3, lo, hi) ∧ lo ≤ s1.val ∧ s1.val ≤ hi := by
    unfold first
    split_ifs <;> first
      | omega
      | exact ⟨_, _, rfl, by omega, by omega⟩
  obtain ⟨lo, hi, hf, hlo, hhi⟩ := hf
  have hn : ¬ s0.val < 0x80 := by omega
  have hr : ¬ (s1.val < lo ∨ hi < s1.val) := by omega
  have hr2 : ¬ (s2.val < 0x80 ∨ 0xBF < s2.val) := by omega
  simp only [decodeRune, hf, if_neg hn, if_neg hr, if_neg hr2, and0F, and3F]
  rw [dec3 _ _ _ (by omega) (by omega)]
  simp

theorem decodeRune_four (s0 s1 s2 s3 : Byte) (rest : GoString)
    (h0 : 0xF0 ≤ s0.val ∧ s0.val ≤ 0xF4) (h1 : 0x80 ≤ s1.val ∧ s1.val ≤ 0xBF)
    (hF0 : s0.val = 0xF0 → 0x90 ≤ s1.val) (hF4 : s0.val = 0xF4 → s1.val ≤ 0x8F)
    (h2 : 0x80 ≤ s2.val ∧ s2.val ≤ 0xBF) (h3 : 0x80 ≤ s3.val ∧ s3.val ≤ 0xBF) :
    decodeRune (s0 :: s1 :: s2 :: s3 :: rest)
      = (s0.val % 8 * 262144 + s1.val % 64 * 4096 + s2.val % 64 * 64 + s3.val % 64, 4) := by
  have hf : ∃ lo hi, first s0.val = some (4, lo, hi) ∧ lo ≤ s1.val ∧ s1.val ≤ hi := by
    unfold first
    split_ifs <;> first
      | omega
      | exact ⟨_, _, rfl, by omega, by omega⟩
  obtain ⟨lo, hi, hf, hlo, hhi⟩ := hf
  have hn : ¬ s0.val < 0x80 := by omega
  have hr : ¬ (s1.val < lo ∨ hi < s1.val) := by omega
  have hr2 : ¬ (s2.val < 0x80 ∨ 0xBF < s2.val) := by omega
  have hr3 : ¬ (s3.val < 0x80 ∨ 0xBF < s3.val) := by omega
  simp only [decodeRune, hf, if_neg hn, if_neg hr, if_neg hr2, if_neg hr3, and07, and3F]
  rw [decodeVal _ _ _ _ (by omega) (by omega) (by omega)]
  simp

/-- A Unicode scalar value: a code point that is not a surrogate. -/
theorem char_scalar (c : Char) :
    c.toNat < 0xD800 ∨ (0xDFFF < c.toNat ∧ c.toNat < 0x110000) := c.valid

/-- Decoding the UTF-8 encoding of a scalar value gives the value and the
length of its encoding. -/
theorem decodeRune_appendRune (n : Nat) (rest : GoString)
    (hv : n < 0xD800 ∨ (0xDFFF < n ∧ n < 0x110000)) :
    decodeRune (appendRune n ++ rest) = (n, (appendRune n).length) ∧
      1 ≤ (appendRune n).length := by
  rw [appendRune_arith]
  split
  · refine ⟨?_, by simp⟩
    rw [List.singleton_append, decodeRune_one _ _ (by simp [byteOf]; omega)]
    simp [byteOf]; omega
  split
  · refine ⟨?_, by simp⟩
    simp only [List.cons_append, List.nil_append]
    rw [decodeRune_two _ _ _ (by simp [byteOf]; omega) (by simp [byteOf]; omega)]
    simp [byteOf]; omega
  split
  · rename_i h1 h2 h3
    simp only [MaxRune] at h3
    omega
  split
  · refine ⟨?_, by simp⟩
    simp only [List.cons_append, List.nil_append]
    rw [decodeRune_three _ _ _ _ (by simp [byteOf]; omega) (by simp [byteOf]; omega)
      (by simp [byteOf]; omega) (by simp [byteOf]; omega) (by simp [byteOf]; omega)]
    simp [byteOf]; omega
  · rename_i h1 h2 h3 h4
    simp only [MaxRune] at h3
    refine ⟨?_, by simp⟩
    simp only [List.cons_append, List.nil_append]
    rw [decodeRune_four _ _ _ _ _ (by simp [byteOf]; omega) (by simp [byteOf]; omega)
      (by simp [byteOf]; omega) (by simp [byteOf]; omega) (by simp [byteOf]; omega)
      (by simp [byteOf]; omega)]
    simp [byteOf]; omega

/-! ## The encode case of `processUnicode` -/

theorem rangeRunes_utf8 (cs : List Char) :
    ∀ fuel, (utf8 cs).length ≤ fuel → rangeRunes fuel (utf8 cs) = cs.map Char.toNat := by
  induction cs with
  | nil =>
    intro fuel _
    cases fuel <;> rfl
  | cons c cs ih =>
    intro fuel hf
    obtain ⟨hd, hl⟩ := decodeRune_appendRune c.toNat (utf8 cs) (char_scalar c)
    have hu : utf8 (c :: cs) = appendRune c.toNat ++ utf8 cs := by
      simp [utf8, List.flatMap_cons]
    rw [hu] at hf ⊢
    obtain ⟨e0, et, he, -, -⟩ := appendRune_shape c.toNat
    cases fuel with
    | zero => rw [he] at hf; simp at hf
    | succ fuel =>
      have hcons : appendRune c.toNat ++ utf8 cs = e0 :: (et ++ utf8 cs) := by rw [he]; rfl
      rw [hcons, rangeRunes, ← hcons, hd]
      simp only [List.map_cons, List.drop_left]
      rw [ih fuel (by simp at hf; omega)]

theorem runes_utf8 (cs : List Char) : runes (utf8 cs) = cs.map Char.toNat :=
  rangeRunes_utf8 cs _ (Nat.le_refl _)

theorem utf8_append (a b : List Char) : utf8 (a ++ b) = utf8 a ++ utf8 b := by
  simp [utf8, List.flatMap_append]

theorem utf8_cons (c : Char) (cs : List Char) : utf8 (c :: cs) = appendRune c.toNat ++ utf8 cs := by
  simp [utf8, List.flatMap_cons]

/-- What the encode case does with one rune. -/
theorem processUnicode_encode (lib : StdLib) (input : GoString) :
    ProcessTool lib (str "unicode") ⟨input, some (modeSettings (str "encode"))⟩
      = .response ⟨(runes input).flatMap
          (fun r => if r > 127 then str "\\u" ++ fmtHex04 r else encodeRune r), []⟩ := by
  unfold ProcessTool
  rw [if_neg (by decide), if_neg (by decide), if_neg (by decide), if_neg (by decide), if_pos rfl]
  simp only [processUnicode, resolveMode_string _ _ _ _ (modeSettings_mode _), if_true,
    List.flatMap]

theorem processUnicode_decode (lib : StdLib) (input : GoString) :
    ProcessTool lib (str "unicode") ⟨input, some (modeSettings (str "decode"))⟩
      = .response ⟨decodePass input, []⟩ := by
  unfold ProcessTool
  rw [if_neg (by decide), if_neg (by decide), if_neg (by decide), if_neg (by decide), if_pos rfl]
  simp only [processUnicode, resolveMode_string _ _ _ _ (modeSettings_mode _),
    unicodeDecodeLoop_input, if_true]
  rw [if_neg (by decide)]

theorem hexLoop_step (d : GoString) (f u : Nat) (buf : GoString) (hf : 1 ≤ f) :
    hexLoop d f u buf =
      if u ≥ 16 then hexLoop d (f - 1) (u / 16) (d.getD (u % 16) 0 :: buf)
      else d.getD u 0 :: buf := by
  obtain ⟨f, rfl⟩ : ∃ g, f = g + 1 := ⟨f - 1, by omega⟩
  simp only [hexLoop, and0F, Nat.shiftRight_eq_div_pow, Nat.add_sub_cancel]

theorem ldigits_getD (k : Nat) (hk : k < 16) : ldigits.getD k 0 = hexDigit k := by
  have : ∀ j : Fin 16, ldigits.getD j.val 0 = hexDigit j.val := by decide
  exact this ⟨k, hk⟩

theorem fmtHex04_le_ffff (u : Nat) (h : u ≤ 0xFFFF) : fmtHex04 u = hex4 u := by
  unfold fmtHex04 hex4
  by_cases h1 : u < 16
  · rw [hexLoop_step _ _ _ _ (by omega), if_neg (by omega)]
    rw [ldigits_getD _ h1]
    have e1 : u / 4096 % 16 = 0 := by omega
    have e2 : u / 256 % 16 = 0 := by omega
    have e3 : u / 16 % 16 = 0 := by omega
    have e4 : u % 16 = u := by omega
    rw [e1, e2, e3, e4]
    rfl
  by_cases h2 : u < 256
  · rw [hexLoop_step _ _ _ _ (by omega), if_pos (by omega),
      hexLoop_step _ _ _ _ (by omega), if_neg (by omega)]
    rw [ldigits_getD _ (by omega), ldigits_getD _ (by omega)]
    have e1 : u / 4096 % 16 = 0 := by omega
    have e2 : u / 256 % 16 = 0 := by omega
    have e3 : u / 16 % 16 = u / 16 := by omega
    rw [e1, e2, e3]
    rfl
  by_cases h3 : u < 4096
  · rw [hexLoop_step _ _ _ _ (by omega), if_pos (by omega),
      hexLoop_step _ _ _ _ (by omega), if_pos (by omega),
      hexLoop_step _ _ _ _ (by omega), if_neg (by omega)]
    rw [ldigits_getD _ (by omega), ldigits_getD _ (by omega), ldigits_getD _ (by omega)]
    have e1 : u / 4096 % 16 = 0 := by omega
    have e2 : u / 256 % 16 = u / 16 / 16 := by omega
    rw [e1, e2]
    rfl
  · rw [hexLoop_step _ _ _ _ (by omega), if_pos (by omega),
      hexLoop_step _ _ _ _ (by omega), if_pos (by omega),
      hexLoop_step _ _ _ _ (by omega), if_pos (by omega),
      hexLoop_step _ _ _ _ (by omega), if_neg (by omega)]
    rw [ldigits_getD _ (by omega), ldigits_getD _ (by omega), ldigits_getD _ (by omega),
      ldigits_getD _ (by omega)]
    have e1 : u / 4096 % 16 = u / 16 / 16 / 16 := by omega
    have e2 : u / 256 % 16 = u / 16 / 16 % 16 := by omega
    rw [e1, e2]
    rfl

theorem fmtHex04_above (u : Nat) (h : 0xFFFF < u) (hmax : u < 0x110000) :
    fmtHex04 u = hexAbove u := by
  unfold fmtHex04 hexAbove hex4
  by_cases h1 : u < 0x100000
  · rw [if_pos h1]
    rw [hexLoop_step _ _ _ _ (by omega), if_pos (by omega),
      hexLoop_step _ _ _ _ (by omega), if_pos (by omega),
      hexLoop_step _ _ _ _ (by omega), if_pos (by omega),
      hexLoop_step _ _ _ _ (by omega), if_pos (by omega),
      hexLoop_step _ _ _ _ (by omega), if_neg (by omega)]
    rw [ldigits_getD _ (by omega), ldigits_getD _ (by omega), ldigits_getD _ (by omega),
      ldigits_getD _ (by omega), ldigits_getD _ (by omega)]
    have e0 : u / 65536 % 16 = u / 16 / 16 / 16 / 16 := by omega
    have e1 : u / 4096 % 16 = u / 16 / 16 / 16 % 16 := by omega
    have e2 : u / 256 % 16 = u / 16 / 16 % 16 := by omega
    rw [e0, e1, e2]
    rfl
  · rw [if_neg h1]
    rw [hexLoop_step _ _ _ _ (by omega), if_pos (by omega),
      hexLoop_step _ _ _ _ (by omega), if_pos (by omega),
      hexLoop_step _ _ _ _ (by omega), if_pos (by omega),
      hexLoop_step _ _ _ _ (by omega), if_pos (by omega),
      hexLoop_step _ _ _ _ (by omega), if_pos (by omega),
      hexLoop_step _ _ _ _ (by omega), if_neg (by omega)]
    rw [ldigits_getD _ (by omega), ldigits_getD _ (by omega), ldigits_getD _ (by omega),
      ldigits_getD _ (by omega), ldigits_getD _ (by omega), ldigits_getD _ (by omega)]
    have e00 : u / 1048576 % 16 = u / 16 / 16 / 16 / 16 / 16 := by omega
    have e0 : u / 65536 % 16 = u / 16 / 16 / 16 / 16 % 16 := by omega
    have e1 : u / 4096 % 16 = u / 16 / 16 / 16 % 16 := by omega
    have e2 : u / 256 % 16 = u / 16 / 16 % 16 := by omega
    rw [e00, e0, e1, e2]
    rfl
theorem encodeRune_ofNat (n : Nat) : encodeRune (n : Int) = appendRune n := by
  simp [encodeRune]

theorem appendRune_ascii (n : Nat) (h : n ≤ 127) : appendRune n = [byteOf n] := by
  simp [appendRune, h]

/-- The encode case on characters up to `0xFFFF` is the per-character encoding
of the specification. -/
theorem encode_rune_spec (r : Nat) (h : r ≤ 0xFFFF) :
    (if r > 127 then str "\\u" ++ fmtHex04 r else encodeRune (r : Int)) = encodeCodePoint r := by
  unfold encodeCodePoint escape4
  by_cases h1 : r ≤ 127
  · rw [if_neg (by omega), if_pos h1, encodeRune_ofNat, appendRune_ascii _ h1]
  · rw [if_pos (by omega), if_neg h1, fmtHex04_le_ffff _ h]

theorem encode_rune_bmp (c : Char) (h : c.toNat ≤ 0xFFFF) :
    (if c.toNat > 127 then str "\\u" ++ fmtHex04 c.toNat else encodeRune (c.toNat : Int))
      = encodeChar c :=
  encode_rune_spec c.toNat h

/-- The encode case on any Go string whose runes are all up to `0xFFFF`. -/
theorem encode_output_runes (lib : StdLib) (input : GoString)
    (h : ∀ r ∈ runes input, r ≤ 0xFFFF) :
    ProcessTool lib (str "unicode") ⟨input, some (modeSettings (str "encode"))⟩
      = .response ⟨(runes input).flatMap encodeCodePoint, []⟩ := by
  rw [processUnicode_encode]
  congr 2
  generalize runes input = rs at h
  induction rs with
  | nil => rfl
  | cons r rs ih =>
    simp only [List.flatMap_cons]
    rw [encode_rune_spec r (h r (by simp)), ih (fun x hx => h x (by simp [hx]))]

theorem rangeRunes_ascii (input : GoString) (h : ∀ b ∈ input, b.val ≤ 127) :
    ∀ fuel, input.length ≤ fuel → rangeRunes fuel input = input.map (fun b => b.val) := by
  induction input with
  | nil =>
    intro fuel _
    cases fuel <;> rfl
  | cons b t ih =>
    intro fuel hf
    cases fuel with
    | zero => simp at hf
    | succ fuel =>
      have hb : b.val < 0x80 := by have := h b (by simp); omega
      rw [rangeRunes, decodeRune_one _ _ hb]
      simp only [List.drop_succ_cons, List.drop_zero, List.map_cons]
      rw [ih (fun x hx => h x (by simp [hx])) fuel (by simp at hf; omega)]

theorem encode_output_ascii (lib : StdLib) (input : GoString) (h : ∀ b ∈ input, b.val ≤ 127) :
    ProcessTool lib (str "unicode") ⟨input, some (modeSettings (str "encode"))⟩
      = .response ⟨input, []⟩ := by
  have hr : runes input = input.map (fun b => b.val) :=
    rangeRunes_ascii input h _ (Nat.le_refl _)
  rw [encode_output_runes lib input (by
    rw [hr]
    intro r hr1
    obtain ⟨b, hb, rfl⟩ := List.mem_map.mp hr1
    have := h b hb
    omega), hr]
  congr 2
  clear hr
  induction input with
  | nil => rfl
  | cons b t ih =>
    simp only [List.map_cons, List.flatMap_cons]
    rw [ih (fun x hx => h x (by simp [hx]))]
    have hb := h b (by simp)
    have e : byteOf b.val = b := Fin.ext (by simp [byteOf])
    simp [encodeCodePoint, hb, e]

theorem encode_output_bmp (lib : StdLib) (cs : List Char) (h : ∀ c ∈ cs, c.toNat ≤ 0xFFFF) :
    ProcessTool lib (str "unicode") ⟨utf8 cs, some (modeSettings (str "encode"))⟩
      = .response ⟨cs.flatMap encodeChar, []⟩ := by
  rw [processUnicode_encode, runes_utf8]
  congr 2
  induction cs with
  | nil => rfl
  | cons c cs ih =>
    simp only [List.map_cons, List.flatMap_cons]
    rw [encode_rune_bmp c (h c (by simp)), ih (fun x hx => h x (by simp [hx]))]

theorem utf8_ascii (cs : List Char) (h : ∀ c ∈ cs, c.toNat ≤ 127) :
    cs.flatMap encodeChar = utf8 cs := by
  induction cs with
  | nil => rfl
  | cons c cs ih =>
    rw [utf8_cons, List.flatMap_cons, ih (fun x hx => h x (by simp [hx]))]
    rw [appendRune_ascii _ (h c (by simp))]
    simp [encodeChar, encodeCodePoint, h c (by simp)]

/-- C8. For every input whose characters all have a code point of at most
`0xFFFF`, the Output of the unicode tool in mode `encode` is the concatenation,
in order, of the character itself when its code point is at most 127 and
otherwise of a backslash, the letter `u` and the code point as four lowercase
hexadecimal digits; an input of characters up to 127 only is returned
unchanged. The input is a sequence of Unicode characters in UTF-8; the last
two parts say the same of any Go string, read rune by rune as `range` does. -/
theorem C8_encode_escapes_above_127 (lib : StdLib) (cs : List Char)
    (h : ∀ c ∈ cs, c.toNat ≤ 0xFFFF) :
    ProcessTool lib (str "unicode") ⟨utf8 cs, some (modeSettings (str "encode"))⟩
      = .response ⟨cs.flatMap encodeChar, []⟩ ∧
    ((∀ c ∈ cs, c.toNat ≤ 127) →
      ProcessTool lib (str "unicode") ⟨utf8 cs, some (modeSettings (str "encode"))⟩
        = .response ⟨utf8 cs, []⟩) ∧
    (∀ input : GoString, (∀ r ∈ runes input, r ≤ 0xFFFF) →
      ProcessTool lib (str "unicode") ⟨input, some (modeSettings (str "encode"))⟩
        = .response ⟨(runes input).flatMap encodeCodePoint, []⟩) ∧
    (∀ input : GoString, (∀ b ∈ input, b.val ≤ 127) →
      ProcessTool lib (str "unicode") ⟨input, some (modeSettings (str "encode"))⟩
        = .response ⟨input, []⟩) := by
  refine ⟨encode_output_bmp lib cs h, fun ha => ?_, encode_output_runes lib,
    encode_output_ascii lib⟩
  rw [encode_output_bmp lib cs h, utf8_ascii cs ha]

/-- C8, witness: the input `aé€`, with one, two and three bytes of UTF-8. -/
theorem C8_encode_escapes_above_127_witness :
    ProcessTool sampleLib (str "unicode")
        ⟨utf8 ['a', 'é', '€'], some (modeSettings (str "encode"))⟩
      = .response ⟨['a', 'é', '€'].flatMap encodeChar, []⟩ ∧
    ((∀ c ∈ ['a', 'é', '€'], c.toNat ≤ 127) →
      ProcessTool sampleLib (str "unicode")
          ⟨utf8 ['a', 'é', '€'], some (modeSettings (str "encode"))⟩
        = .response ⟨utf8 ['a', 'é', '€'], []⟩) ∧
    (∀ input : GoString, (∀ r ∈ runes input, r ≤ 0xFFFF) →
      ProcessTool sampleLib (str "unicode") ⟨input, some (modeSettings (str "encode"))⟩
        = .response ⟨(runes input).flatMap encodeCodePoint, []⟩) ∧
    (∀ input : GoString, (∀ b ∈ input, b.val ≤ 127) →
      ProcessTool sampleLib (str "unicode") ⟨input, some (modeSettings (str "encode"))⟩
        = .response ⟨input, []⟩) :=
  C8_encode_escapes_above_127 sampleLib ['a', 'é', '€'] (by decide)

theorem encode_rune_above (c : Char) (h : 0xFFFF < c.toNat) :
    (if c.toNat > 127 then str "\\u" ++ fmtHex04 c.toNat else encodeRune (c.toNat : Int))
      = str "\\u" ++ hexAbove c.toNat := by
  have hmax : c.toNat < 0x110000 := by
    rcases char_scalar c with h1 | h1 <;> omega
  rw [if_pos (by omega), fmtHex04_above _ h hmax]

/-- The encode case works rune by rune: the output for a concatenation is the
concatenation of the outputs. -/
theorem encode_output_split (lib : StdLib) (pre post : List Char) (c : Char) :
    ProcessTool lib (str "unicode")
        ⟨utf8 (pre ++ c :: post), some (modeSettings (str "encode"))⟩
      = .response ⟨(runes (utf8 pre)).flatMap
            (fun r => if r > 127 then str "\\u" ++ fmtHex04 r else encodeRune r)
          ++ (if c.toNat > 127 then str "\\u" ++ fmtHex04 c.toNat else encodeRune (c.toNat : Int))
          ++ (runes (utf8 post)).flatMap
            (fun r => if r > 127 then str "\\u" ++ fmtHex04 r else encodeRune r), []⟩ := by
  rw [processUnicode_encode, runes_utf8, runes_utf8, runes_utf8]
  simp [List.flatMap_append, List.flatMap_cons]

/-- C9, as the code has it. A character whose code point is above `0xFFFF` is
encoded, wherever it stands in the input, as one escape made of a backslash,
the letter `u` and all the lowercase hexadecimal digits of the code point,
five or six of them: nothing is cut, and the escape is seven or eight
characters long. The escape of a character from 128 to `0xFFFF` is six
characters long. -/
theorem C9_encode_above_ffff_not_truncated (lib : StdLib) (pre post : List Char) (c : Char)
    (h : 0xFFFF < c.toNat) :
    (∃ o1 o2,
      ProcessTool lib (str "unicode") ⟨utf8 pre, some (modeSettings (str "encode"))⟩
        = .response ⟨o1, []⟩ ∧
      ProcessTool lib (str "unicode") ⟨utf8 post, some (modeSettings (str "encode"))⟩
        = .response ⟨o2, []⟩ ∧
      ProcessTool lib (str "unicode")
          ⟨utf8 (pre ++ c :: post), some (modeSettings (str "encode"))⟩
        = .response ⟨o1 ++ (str "\\u" ++ hexAbove c.toNat) ++ o2, []⟩) ∧
    ((str "\\u" ++ hexAbove c.toNat).length = 7 ∨ (str "\\u" ++ hexAbove c.toNat).length = 8) ∧
    (∀ d : Char, 127 < d.toNat → d.toNat ≤ 0xFFFF →
      ProcessTool lib (str "unicode") ⟨utf8 [d], some (modeSettings (str "encode"))⟩
        = .response ⟨escape4 d.toNat, []⟩ ∧ (escape4 d.toNat).length = 6) := by
  refine ⟨⟨_, _, processUnicode_encode lib _, processUnicode_encode lib _, ?_⟩, ?_, ?_⟩
  · rw [encode_output_split, encode_rune_above c h]
  · have hl : (str "\\u").length = 2 := by decide
    unfold hexAbove
    split
    · left; simp [hl, hex4]
    · right; simp [hl, hex4]
  · intro d h1 h2
    constructor
    · rw [encode_output_bmp lib [d] (by simpa using h2)]
      simp [encodeChar, encodeCodePoint, Nat.not_le.mpr h1]
    · have hl : (str "\\u").length = 2 := by decide
      simp [escape4, hl, hex4]

/-- C9, witness: the character U+1F600 between `a` and `b`. -/
theorem C9_encode_above_ffff_not_truncated_witness :
    (∃ o1 o2,
      ProcessTool sampleLib (str "unicode") ⟨utf8 ['a'], some (modeSettings (str "encode"))⟩
        = .response ⟨o1, []⟩ ∧
      ProcessTool sampleLib (str "unicode") ⟨utf8 ['b'], some (modeSettings (str "encode"))⟩
        = .response ⟨o2, []⟩ ∧
      ProcessTool sampleLib (str "unicode")
          ⟨utf8 (['a'] ++ Char.ofNat 0x1F600 :: ['b']), some (modeSettings (str "encode"))⟩
        = .response ⟨o1 ++ (str "\\u" ++ hexAbove (Char.ofNat 0x1F600).toNat) ++ o2, []⟩) ∧
    ((str "\\u" ++ hexAbove (Char.ofNat 0x1F600).toNat).length = 7 ∨
      (str "\\u" ++ hexAbove (Char.ofNat 0x1F600).toNat).length = 8) ∧
    (∀ d : Char, 127 < d.toNat → d.toNat ≤ 0xFFFF →
      ProcessTool sampleLib (str "unicode") ⟨utf8 [d], some (modeSettings (str "encode"))⟩
        = .response ⟨escape4 d.toNat, []⟩ ∧ (escape4 d.toNat).length = 6) :=
  C9_encode_above_ffff_not_truncated sampleLib ['a'] ['b'] (Char.ofNat 0x1F600) (by decide)

/-- C9, counterexample: the character U+1F600 is encoded as seven characters,
a backslash, `u` and the five digits `1f600`, not as the six characters of a
backslash, `u` and its low four hexadecimal digits `f600`. -/
theorem C9_counterexample_u1f600 :
    (Char.ofNat 0x1F600).toNat = 0x1F600 ∧
    ProcessTool sampleLib (str "unicode")
        ⟨utf8 [Char.ofNat 0x1F600], some (modeSettings (str "encode"))⟩
      = .response ⟨str "\\u1f600", []⟩ ∧
    (str "\\u1f600").length = 7 ∧
    escape4 (0x1F600 % 0x10000) = str "\\uf600" ∧
    ProcessTool sampleLib (str "unicode")
        ⟨utf8 [Char.ofNat 0x1F600], some (modeSettings (str "encode"))⟩
      ≠ .response ⟨escape4 (0x1F600 % 0x10000), []⟩ := by
  decide
/-! ## Decoding what was encoded -/

theorem hexVal_hexDigit (k : Nat) (hk : k < 16) : hexVal (hexDigit k) = some k := by
  have : ∀ j : Fin 16, hexVal (hexDigit j.val) = some j.val := by decide
  exact this ⟨k, hk⟩

theorem hexDigit_not_sign (k : Nat) (hk : k < 16) :
    ¬ ((hexDigit k).val = 0x2B ∨ (hexDigit k).val = 0x2D) := by
  have : ∀ j : Fin 16, ¬ ((hexDigit j.val).val = 0x2B ∨ (hexDigit j.val).val = 0x2D) := by decide
  exact this ⟨k, hk⟩

theorem parseInt16_hex4 (n : Nat) (h : n ≤ 0xFFFF) : parseInt16 (hex4 n) = some (n : Int) := by
  have h3 : n / 4096 % 16 < 16 := Nat.mod_lt _ (by decide)
  have h2 : n / 256 % 16 < 16 := Nat.mod_lt _ (by decide)
  have h1 : n / 16 % 16 < 16 := Nat.mod_lt _ (by decide)
  have h0 : n % 16 < 16 := Nat.mod_lt _ (by decide)
  have hs := hexDigit_not_sign _ h3
  have hneg : ¬ ((hexDigit (n / 4096 % 16)).val = 0x2D) := fun hh => hs (Or.inr hh)
  have hval : ((0 * 16 + n / 4096 % 16) * 16 + n / 256 % 16) * 16 + n / 16 % 16 = n / 16 := by
    omega
  have e : n / 16 * 16 + n % 16 = n := by omega
  have hlt : ¬ (n ≥ 2 ^ 31) := by omega
  simp only [hex4, parseInt16]
  rw [if_neg hs]
  simp only [parseUint16, parseUintLoop, hexVal_hexDigit _ h3, hexVal_hexDigit _ h2,
    hexVal_hexDigit _ h1, hexVal_hexDigit _ h0, hval, e]
  rw [if_neg (fun hh => hlt hh.2), if_neg (fun hh => hneg hh.1), if_neg hneg]

theorem parseUintLoop_none (l : GoString) (x : Byte) (hx : x ∈ l) (hv : hexVal x = none) :
    ∀ n, parseUintLoop l n = none := by
  induction l with
  | nil => simp at hx
  | cons c t ih =>
    intro n
    rw [parseUintLoop]
    rcases List.mem_cons.mp hx with rfl | hx
    · rw [hv]
    · cases hexVal c with
      | none => rfl
      | some d => exact ih hx _

theorem parseInt16_none (l : GoString) (hx : byteOf 0x5C ∈ l) : parseInt16 l = none := by
  have hv : hexVal (byteOf 0x5C) = none := by decide
  rcases l with _ | ⟨c, t⟩
  · rfl
  · simp only [parseInt16]
    by_cases hs : c.val = 0x2B ∨ c.val = 0x2D
    · have hc : c ≠ byteOf 0x5C := by
        rintro rfl
        revert hs
        decide
      have ht : byteOf 0x5C ∈ t := by
        rcases List.mem_cons.mp hx with h | h
        · exact absurd h.symm hc
        · exact h
      rw [if_pos hs]
      rcases t with _ | ⟨c1, t1⟩
      · simp at ht
      · simp only [parseUint16, parseUintLoop_none _ _ ht hv]
    · rw [if_neg hs]
      simp only [parseUint16, parseUintLoop_none _ _ hx hv]

theorem hasEscape_append (a b : GoString) (h : hasEscape (a ++ b) = false) :
    hasEscape b = false := by
  induction a with
  | nil => exact h
  | cons x a ih =>
    rw [List.cons_append, hasEscape, Bool.or_eq_false_iff] at h
    exact ih h.2

theorem decodePass_cons_noescape (c : Byte) (t : GoString) (h : escapeAt (c :: t) = false) :
    decodePass (c :: t) = c :: decodePass t := by
  rcases t with _ | ⟨u, _ | ⟨h0, _ | ⟨h1, _ | ⟨h2, _ | ⟨h3, rest⟩⟩⟩⟩⟩
  · simp [decodePass]
  · simp [decodePass]
  · simp [decodePass]
  · simp [decodePass]
  · simp [decodePass]
  · simp only [escapeAt, Bool.and_eq_false_iff, decide_eq_false_iff_not] at h
    rw [decodePass]
    rcases h with h | h
    · rw [if_neg h]
    · cases hp : parseInt16 [h0, h1, h2, h3] with
      | none => simp
      | some v => rw [hp] at h; simp at h

/-- A run of bytes without a backslash at the start of an encoded text is a
run of characters up to 127, which stand unchanged in the text itself. -/
theorem encode_prefix (p : GoString) (hp : ∀ x ∈ p, x ≠ byteOf 0x5C) :
    ∀ (cs : List Char) (rest : GoString), cs.flatMap encodeChar = p ++ rest →
      ∃ rest1, utf8 cs = p ++ rest1 := by
  induction p with
  | nil => intro cs rest _; exact ⟨utf8 cs, rfl⟩
  | cons x p ih =>
    intro cs rest h
    rcases cs with _ | ⟨c, cs⟩
    · simp at h
    · rw [List.flatMap_cons] at h
      by_cases hc : c.toNat ≤ 127
      · simp only [encodeChar, encodeCodePoint, if_pos hc, List.singleton_append,
          List.cons_append,
          List.cons.injEq] at h
        obtain ⟨rest1, h1⟩ := ih (fun y hy => hp y (by simp [hy])) cs rest h.2
        refine ⟨rest1, ?_⟩
        rw [utf8_cons, appendRune_ascii _ hc, h1, h.1]
        rfl
      · simp only [encodeChar, encodeCodePoint, if_neg hc, escape4, str_bu, List.cons_append,
          List.cons.injEq] at h
        exact absurd h.1.symm (hp x (by simp))

theorem escapeAt_encode (b : Byte) (cs : List Char)
    (h : escapeAt (b :: cs.flatMap encodeChar) = true) : escapeAt (b :: utf8 cs) = true := by
  rcases hcs : cs.flatMap encodeChar with _ | ⟨u, _ | ⟨h0, _ | ⟨h1, _ | ⟨h2, _ | ⟨h3, rest⟩⟩⟩⟩⟩
  all_goals rw [hcs] at h
  all_goals try (simp [escapeAt] at h; done)
  simp only [escapeAt, Bool.and_eq_true, decide_eq_true_eq] at h
  obtain ⟨hm, hp⟩ := h
  have hu : u = byteOf 0x75 := by
    rw [str_bu] at hm
    simp only [List.cons.injEq, and_true] at hm
    exact hm.2
  have hne : ∀ x ∈ [u, h0, h1, h2, h3], x ≠ byteOf 0x5C := by
    intro x hx hxe
    subst hxe
    rcases List.mem_cons.mp hx with h | hx
    · rw [hu] at h; exact absurd h (by decide)
    · rw [parseInt16_none _ hx] at hp
      simp at hp
  obtain ⟨rest1, h1⟩ := encode_prefix [u, h0, h1, h2, h3] hne cs rest (by rw [hcs]; rfl)
  rw [h1]
  simp [escapeAt, hm, hp]

theorem decodePass_escape4 (n : Nat) (h : n ≤ 0xFFFF) (rest : GoString) :
    decodePass (escape4 n ++ rest) = appendRune n ++ decodePass rest := by
  simp only [escape4, hex4, str_bu, List.cons_append, List.nil_append]
  rw [decodePass, if_pos (by rw [str_bu])]
  have := parseInt16_hex4 n h
  simp only [hex4] at this
  rw [this]
  simp only [encodeRune_ofNat]

/-- The forward pass of the decoder undoes the per-character encoding of a text
that holds no escape of its own. -/
theorem decodePass_encode (cs : List Char) (hb : ∀ c ∈ cs, c.toNat ≤ 0xFFFF)
    (hne : hasEscape (utf8 cs) = false) : decodePass (cs.flatMap encodeChar) = utf8 cs := by
  induction cs with
  | nil => rfl
  | cons c cs ih =>
    have hrest : hasEscape (utf8 cs) = false := by
      rw [utf8_cons] at hne
      exact hasEscape_append _ _ hne
    have ih1 := ih (fun x hx => hb x (by simp [hx])) hrest
    rw [List.flatMap_cons, utf8_cons]
    by_cases hc : c.toNat ≤ 127
    · rw [utf8_cons, appendRune_ascii _ hc, List.singleton_append, hasEscape,
        Bool.or_eq_false_iff] at hne
      have hno : escapeAt (byteOf c.toNat :: cs.flatMap encodeChar) = false := by
        cases hh : escapeAt (byteOf c.toNat :: cs.flatMap encodeChar) with
        | false => rfl
        | true => rw [escapeAt_encode _ _ hh] at hne; simp at hne
      simp only [encodeChar, encodeCodePoint, if_pos hc, List.singleton_append]
      rw [decodePass_cons_noescape _ _ hno, ih1, appendRune_ascii _ hc]
      rfl
    · simp only [encodeChar, encodeCodePoint, if_neg hc]
      rw [decodePass_escape4 _ (hb c (by simp)), ih1]

/-- C6, as the code has it. For every string whose code points are all below
`0x10000` and which holds no escape of its own (no backslash followed by `u`
and four characters that `strconv.ParseInt` accepts in base 16), the unicode
tool in mode `decode` applied to the Output of mode `encode` returns the
string. The encoding of `café` is the nine characters `c a f \ u 0 0 e 9`, and
decoding them gives `café`. -/
theorem C6_unicode_round_trip_without_literal_escape (lib : StdLib) (cs : List Char)
    (hb : ∀ c ∈ cs, c.toNat < 0x10000) (hne : hasEscape (utf8 cs) = false) :
    (∃ e, ProcessTool lib (str "unicode") ⟨utf8 cs, some (modeSettings (str "encode"))⟩
        = .response ⟨e, []⟩ ∧
      ProcessTool lib (str "unicode") ⟨e, some (modeSettings (str "decode"))⟩
        = .response ⟨utf8 cs, []⟩) ∧
    ProcessTool lib (str "unicode") ⟨str "café", some (modeSettings (str "encode"))⟩
      = .response ⟨str "caf\\u00e9", []⟩ ∧
    (str "caf\\u00e9").length = 9 ∧
    ProcessTool lib (str "unicode") ⟨str "caf\\u00e9", some (modeSettings (str "decode"))⟩
      = .response ⟨str "café", []⟩ := by
  have hb1 : ∀ c ∈ cs, c.toNat ≤ 0xFFFF := fun c hc => by have := hb c hc; omega
  refine ⟨⟨_, encode_output_bmp lib cs hb1, ?_⟩, ?_, by decide, ?_⟩
  · rw [processUnicode_decode, decodePass_encode cs hb1 hne]
  · have h := encode_output_bmp lib "café".toList (by decide)
    have e : "café".toList.flatMap encodeChar = str "caf\\u00e9" := by decide
    rw [e] at h
    exact h
  · rw [processUnicode_decode]
    have e : decodePass (str "caf\\u00e9") = str "café" := by decide
    rw [e]

/-- C6, witness: the string `café`. -/
theorem C6_unicode_round_trip_without_literal_escape_witness :
    (∃ e, ProcessTool sampleLib (str "unicode")
          ⟨utf8 "café".toList, some (modeSettings (str "encode"))⟩
        = .response ⟨e, []⟩ ∧
      ProcessTool sampleLib (str "unicode") ⟨e, some (modeSettings (str "decode"))⟩
        = .response ⟨utf8 "café".toList, []⟩) ∧
    ProcessTool sampleLib (str "unicode") ⟨str "café", some (modeSettings (str "encode"))⟩
      = .response ⟨str "caf\\u00e9", []⟩ ∧
    (str "caf\\u00e9").length = 9 ∧
    ProcessTool sampleLib (str "unicode")
        ⟨str "caf\\u00e9", some (modeSettings (str "decode"))⟩
      = .response ⟨str "café", []⟩ :=
  C6_unicode_round_trip_without_literal_escape sampleLib "café".toList (by decide) (by decide)

/-- C6, counterexample: the six characters backslash, `u`, `0`, `0`, `4`, `1`
are all below `0x10000`; encoding leaves them as they are, and decoding the
result gives the one character `A`. Besides, the encoding of `café` has nine
characters, not ten. -/
theorem C6_counterexample_literal_escape :
    (∀ c ∈ "\\u0041".toList, c.toNat < 0x10000) ∧
    ProcessTool sampleLib (str "unicode")
        ⟨utf8 "\\u0041".toList, some (modeSettings (str "encode"))⟩
      = .response ⟨str "\\u0041", []⟩ ∧
    ProcessTool sampleLib (str "unicode") ⟨str "\\u0041", some (modeSettings (str "decode"))⟩
      = .response ⟨str "A", []⟩ ∧
    str "A" ≠ utf8 "\\u0041".toList ∧
    (str "caf\\u00e9").length ≠ 10 := by
  decide

/-! ## The decode pass of the code against the pass of the specification -/

set_option maxRecDepth 100000 in
theorem hexVal_spec (c : Byte) :
    hexVal c = if isHexDigit c then some (hexDigitVal c) else none := by
  revert c
  decide

theorem parseInt16_unsigned (h0 h1 h2 h3 : Byte) (hs : ¬ (h0.val = 0x2B ∨ h0.val = 0x2D)) :
    parseInt16 [h0, h1, h2, h3] =
      if isHexDigit h0 ∧ isHexDigit h1 ∧ isHexDigit h2 ∧ isHexDigit h3 then
        some ((((hexDigitVal h0 * 16 + hexDigitVal h1) * 16 + hexDigitVal h2) * 16
          + hexDigitVal h3 : Nat) : Int)
      else none := by
  have hneg : ¬ (h0.val = 0x2D) := fun hh => hs (Or.inr hh)
  have hb : ∀ c : Byte, hexDigitVal c < 256 := by
    intro c
    have := c.isLt
    unfold hexDigitVal
    split_ifs <;> omega
  simp only [parseInt16]
  rw [if_neg hs]
  simp only [parseUint16, parseUintLoop, hexVal_spec]
  by_cases e0 : isHexDigit h0 = true
  · by_cases e1 : isHexDigit h1 = true
    · by_cases e2 : isHexDigit h2 = true
      · by_cases e3 : isHexDigit h3 = true
        · have hlt : ¬ ((((0 * 16 + hexDigitVal h0) * 16 + hexDigitVal h1) * 16 + hexDigitVal h2)
              * 16 + hexDigitVal h3 ≥ 2 ^ 31) := by
            have := hb h0
            have := hb h1
            have := hb h2
            have := hb h3
            omega
          simp only [e0, e1, e2, e3, if_true, and_self]
          rw [if_neg (fun hh => hlt hh.2), if_neg (fun hh => hneg hh.1), if_neg hneg]
          simp
        · simp [e0, e1, e2, e3]
      · simp [e0, e1, e2]
    · simp [e0, e1]
  · simp [e0]

theorem sign_not_hexDigit (c : Byte) (hs : c.val = 0x2B ∨ c.val = 0x2D) :
    ¬ (isHexDigit c = true) := by
  have h1 : c = byteOf 0x2B ∨ c = byteOf 0x2D := by
    rcases hs with h | h
    · exact Or.inl (Fin.ext h)
    · exact Or.inr (Fin.ext h)
  rcases h1 with rfl | rfl <;> decide

theorem hasSignedEscape_tail (c : Byte) (t : GoString) (h : hasSignedEscape (c :: t) = false) :
    signedEscapeAt (c :: t) = false ∧ hasSignedEscape t = false := by
  rw [hasSignedEscape, Bool.or_eq_false_iff] at h
  exact h

theorem hasSignedEscape_drop (s : GoString) (k : Nat) (h : hasSignedEscape s = false) :
    hasSignedEscape (s.drop k) = false := by
  induction k generalizing s with
  | zero => exact h
  | succ k ih =>
    rcases s with _ | ⟨c, t⟩
    · exact h
    · exact ih t (hasSignedEscape_tail c t h).2

/-- On a text without a signed escape, the pass of the code is the pass of the
specification. -/
theorem decodePass_eq_decodeSpec (n : Nat) :
    ∀ s : GoString, s.length ≤ n → hasSignedEscape s = false → decodePass s = decodeSpec s := by
  induction n with
  | zero =>
    intro s hl _
    have : s = [] := List.length_eq_zero.mp (by omega)
    subst this
    rfl
  | succ n ih =>
    intro s hl hs
    rcases s with _ | ⟨c, _ | ⟨u, _ | ⟨h0, _ | ⟨h1, _ | ⟨h2, _ | ⟨h3, rest⟩⟩⟩⟩⟩⟩
    · rfl
    · rfl
    · simp only [decodePass, decodeSpec]
    · simp only [decodePass, decodeSpec]
    · simp only [decodePass, decodeSpec]
    · simp only [decodePass, decodeSpec]
    · obtain ⟨hat, htail⟩ := hasSignedEscape_tail _ _ hs
      have ih1 := ih (u :: h0 :: h1 :: h2 :: h3 :: rest) (by simp at hl ⊢; omega) htail
      have ih6 := ih rest (by simp at hl ⊢; omega)
        (hasSignedEscape_drop _ 6 hs)
      rw [decodePass, decodeSpec]
      by_cases hm : [c, u] = str "\\u"
      · rw [if_pos hm]
        by_cases hsign : h0.val = 0x2B ∨ h0.val = 0x2D
        · have hnone : parseInt16 [h0, h1, h2, h3] = none := by
            cases hp : parseInt16 [h0, h1, h2, h3] with
            | none => rfl
            | some v => simp [signedEscapeAt, hm, hsign, hp] at hat
          have hnot : ¬ (isHexDigit h0 = true) := sign_not_hexDigit h0 hsign
          rw [hnone, if_neg (fun hh => hnot hh.2.1), ih1]
        · rw [parseInt16_unsigned _ _ _ _ hsign]
          by_cases hall : isHexDigit h0 ∧ isHexDigit h1 ∧ isHexDigit h2 ∧ isHexDigit h3
          · rw [if_pos hall, if_pos ⟨hm, hall⟩, ih6]
          · rw [if_neg hall, if_neg (fun hh => hall hh.2), ih1]
      · rw [if_neg hm, if_neg (fun hh => hm hh.1), ih1]

/-- C7, the code at the failing input. The six characters backslash, `u`, `+`,
`0`, `4`, `1` hold no four hexadecimal digits, so the pass of the
specification copies them; the code decodes them to `A`, since
`strconv.ParseInt` accepts a sign. With `-` for `+` the code gives U+FFFD.
On every input that holds no such signed escape, the Output of the unicode
tool in mode `decode` is the pass of the specification. -/
theorem C7_decode_accepts_signed_escape :
    decodeSpec (str "\\u+041") = str "\\u+041" ∧
    ProcessTool sampleLib (str "unicode") ⟨str "\\u+041", some (modeSettings (str "decode"))⟩
      = .response ⟨str "A", []⟩ ∧
    decodeSpec (str "\\u-041") = str "\\u-041" ∧
    ProcessTool sampleLib (str "unicode") ⟨str "\\u-041", some (modeSettings (str "decode"))⟩
      = .response ⟨appendRune RuneError, []⟩ ∧
    (∀ (lib : StdLib) (input : GoString), hasSignedEscape input = false →
      ProcessTool lib (str "unicode") ⟨input, some (modeSettings (str "decode"))⟩
        = .response ⟨decodeSpec input, []⟩) := by
  refine ⟨by decide, by decide, by decide, by decide, ?_⟩
  intro lib input h
  rw [processUnicode_decode, decodePass_eq_decodeSpec input.length input (Nat.le_refl _) h]

/-- C10. For every input, the json tool in mode `validate` returns the Output
`Valid JSON` and an empty Error when the input parses as a JSON value, and an
empty Output and the Error `Invalid JSON: ` followed by the parser's message
when it does not; the input `null` is of the first kind and the input
`{"a":}` of the second. -/
theorem C10_json_validate (lib : StdLib) (input : GoString) :
    (∀ v, lib.jsonUnmarshal input = .ok v →
      ProcessTool lib (str "json") ⟨input, some (modeSettings (str "validate"))⟩
        = .response ⟨str "Valid JSON", []⟩) ∧
    (∀ e, lib.jsonUnmarshal input = .error e →
      ProcessTool lib (str "json") ⟨input, some (modeSettings (str "validate"))⟩
        = .response ⟨[], str "Invalid JSON: " ++ e⟩) ∧
    ProcessTool lib (str "json") ⟨str "null", some (modeSettings (str "validate"))⟩
      = .response ⟨str "Valid JSON", []⟩ ∧
    (∃ e, ProcessTool lib (str "json")
        ⟨str "\x7b\"a\":\x7d", some (modeSettings (str "validate"))⟩
      = .response ⟨[], str "Invalid JSON: " ++ e⟩) := by
  have hvalid : ∀ (i : GoString) (v : lib.JSON), lib.jsonUnmarshal i = .ok v →
      ProcessTool lib (str "json") ⟨i, some (modeSettings (str "validate"))⟩
        = .response ⟨str "Valid JSON", []⟩ := by
    intro i v hv
    unfold ProcessTool
    rw [if_neg (by decide), if_pos rfl]
    simp only [processJSON, hv, resolveMode_string _ _ _ _ (modeSettings_mode _)]
    rw [if_neg (by decide), if_neg (by decide), if_pos trivial]
  refine ⟨fun v hv => hvalid input v hv, fun e he => processJSON_invalid lib _ e he, ?_, ?_⟩
  · obtain ⟨v, hv⟩ := lib.jsonUnmarshal_null
    exact hvalid _ v hv
  · obtain ⟨e, he⟩ := lib.jsonUnmarshal_bad
    exact ⟨e, processJSON_invalid lib ⟨_, _⟩ e he⟩

/-! ## URL escaping: unescaping what was escaped -/

set_option maxRecDepth 100000 in
theorem escapeByte_digits (c : Byte) :
    ishex (upperhex.getD (c.val >>> 4) 0) = true ∧ ishex (upperhex.getD (c.val &&& 15) 0) = true ∧
      (upperhex.getD (c.val >>> 4) 0).val ≠ 0x25 ∧
      byteOf ((unhex (upperhex.getD (c.val >>> 4) 0) <<< 4)
        ||| unhex (upperhex.getD (c.val &&& 15) 0)) = c := by
  revert c
  decide

set_option maxRecDepth 100000 in
theorem shouldEscape_false (mode : Encoding) (c : Byte) (h : shouldEscape c mode = false) :
    c.val ≠ 0x25 ∧ c.val ≠ 0x20 ∧ (mode = .encodeQueryComponent → c.val ≠ 0x2B) := by
  revert h
  revert c
  cases mode <;> decide

theorem escapeByte_keep (mode : Encoding) (c : Byte) (h : shouldEscape c mode = false) :
    escapeByte mode c = [c] := by
  have h2 := (shouldEscape_false mode c h).2.1
  simp [escapeByte, h, h2]

theorem escape_eq_flatMap (s : GoString) (mode : Encoding) :
    escape s mode = s.flatMap (escapeByte mode) := by
  unfold escape
  split
  · rename_i hall
    rw [List.all_eq_true] at hall
    clear * - hall
    induction s with
    | nil => rfl
    | cons c t ih =>
      have hc : shouldEscape c mode = false := by simpa using hall c (by simp)
      rw [List.flatMap_cons, escapeByte_keep mode c hc, ← ih (fun x hx => hall x (by simp [hx]))]
      rfl
  · rfl

theorem unescapeCheck_percent (mode : Encoding) (c h1 h2 : Byte) (rest : GoString) (n : Nat)
    (hp : Bool) (hc : c.val = 0x25) (e1 : ishex h1 = true) (e2 : ishex h2 = true) :
    unescapeCheck mode (c :: h1 :: h2 :: rest) n hp = unescapeCheck mode rest (n + 1) hp := by
  rw [unescapeCheck, if_pos hc, if_pos ⟨e1, e2⟩]

theorem unescapeCheck_plus (mode : Encoding) (c : Byte) (rest : GoString) (n : Nat) (hp : Bool)
    (hc : c.val = 0x2B) :
    unescapeCheck mode (c :: rest) n hp
      = unescapeCheck mode rest n (decide (mode = .encodeQueryComponent)) := by
  have h25 : ¬ c.val = 0x25 := by omega
  rcases rest with _ | ⟨h1, _ | ⟨h2, rest⟩⟩ <;> simp [unescapeCheck, hc, h25]

theorem unescapeCheck_other (mode : Encoding) (c : Byte) (rest : GoString) (n : Nat) (hp : Bool)
    (h25 : c.val ≠ 0x25) (h2B : c.val ≠ 0x2B) :
    unescapeCheck mode (c :: rest) n hp = unescapeCheck mode rest n hp := by
  rcases rest with _ | ⟨h1, _ | ⟨h2, rest⟩⟩ <;> simp [unescapeCheck, h25, h2B]

theorem unescapeBuild_percent (mode : Encoding) (c h1 h2 : Byte) (rest : GoString)
    (hc : c.val = 0x25) :
    unescapeBuild mode (c :: h1 :: h2 :: rest)
      = byteOf ((unhex h1 <<< 4) ||| unhex h2) :: unescapeBuild mode rest := by
  rw [unescapeBuild, if_pos hc]

theorem unescapeBuild_other (mode : Encoding) (c : Byte) (rest : GoString)
    (h25 : c.val ≠ 0x25) :
    unescapeBuild mode (c :: rest)
      = (if c.val = 0x2B ∧ mode = .encodeQueryComponent then byteOf 0x20 else c)
          :: unescapeBuild mode rest := by
  rcases rest with _ | ⟨h1, _ | ⟨h2, rest⟩⟩ <;> simp only [unescapeBuild, if_neg h25] <;>
    split <;> rfl

/-- The check accepts the escaping of a byte and goes on with what follows. -/
theorem unescapeCheck_escapeByte (mode : Encoding) (c : Byte) (rest : GoString) (n : Nat)
    (hp : Bool) :
    ∃ n1 hp1, unescapeCheck mode (escapeByte mode c ++ rest) n hp
      = unescapeCheck mode rest n1 hp1 := by
  unfold escapeByte
  split
  · exact ⟨_, _, unescapeCheck_plus mode _ rest n hp (by decide)⟩
  · split
    · obtain ⟨e1, e2, -, -⟩ := escapeByte_digits c
      exact ⟨_, _, unescapeCheck_percent mode _ _ _ rest n hp (by decide) e1 e2⟩
    · rename_i hsp hse
      have hse1 : shouldEscape c mode = false := by simpa using hse
      obtain ⟨h25, h20, h2B⟩ := shouldEscape_false mode c hse1
      by_cases hplus : c.val = 0x2B
      · exact ⟨_, _, unescapeCheck_plus mode c rest n hp hplus⟩
      · exact ⟨_, _, unescapeCheck_other mode c rest n hp h25 hplus⟩

theorem unescapeCheck_escape (mode : Encoding) (s : GoString) :
    ∀ (n : Nat) (hp : Bool), ∃ n1 hp1,
      unescapeCheck mode (s.flatMap (escapeByte mode)) n hp = .ok (n1, hp1) := by
  induction s with
  | nil => intro n hp; exact ⟨n, hp, rfl⟩
  | cons c t ih =>
    intro n hp
    rw [List.flatMap_cons]
    obtain ⟨n1, hp1, h1⟩ := unescapeCheck_escapeByte mode c (t.flatMap (escapeByte mode)) n hp
    rw [h1]
    exact ih n1 hp1

/-- The second loop turns the escaping of a byte back into the byte. -/
theorem unescapeBuild_escapeByte (mode : Encoding) (c : Byte) (rest : GoString) :
    unescapeBuild mode (escapeByte mode c ++ rest) = c :: unescapeBuild mode rest := by
  unfold escapeByte
  split
  · rename_i hsp
    have hc : c = byteOf 0x20 := Fin.ext hsp.1
    rw [List.singleton_append, unescapeBuild_other mode _ rest (by decide),
      if_pos ⟨by decide, hsp.2⟩, hc]
  · split
    · obtain ⟨-, -, -, e⟩ := escapeByte_digits c
      rw [List.cons_append, List.cons_append, List.cons_append, List.nil_append,
        unescapeBuild_percent mode _ _ _ rest (by decide), e]
    · rename_i hsp hse
      have hse1 : shouldEscape c mode = false := by simpa using hse
      obtain ⟨h25, h20, h2B⟩ := shouldEscape_false mode c hse1
      rw [List.singleton_append, unescapeBuild_other mode c rest h25,
        if_neg (fun hh => h2B hh.2 hh.1)]

theorem unescapeBuild_escape (mode : Encoding) (s : GoString) :
    unescapeBuild mode (s.flatMap (escapeByte mode)) = s := by
  induction s with
  | nil => rfl
  | cons c t ih => rw [List.flatMap_cons, unescapeBuild_escapeByte, ih]
theorem ishex_not_plus (c : Byte) (h : ishex c = true) : c.val ≠ 0x2B := by
  intro hc
  have : c = byteOf 0x2B := Fin.ext hc
  subst this
  revert h
  decide

/-- What the counters of the check say about the string it accepted: without a
counted `%` the string holds none, and in a query component a flag that is
still unset means the string holds no `+`. -/
theorem unescapeCheck_counters (mode : Encoding) (k : Nat) :
    ∀ (t : GoString), t.length ≤ k → ∀ (n : Nat) (hp : Bool) (n1 : Nat) (hp1 : Bool),
      unescapeCheck mode t n hp = .ok (n1, hp1) →
      n ≤ n1 ∧ (n1 = n → ∀ c ∈ t, c.val ≠ 0x25) ∧
        (mode = .encodeQueryComponent → hp1 = false → hp = false ∧ ∀ c ∈ t, c.val ≠ 0x2B) := by
  induction k with
  | zero =>
    intro t ht n hp n1 hp1 h
    have : t = [] := List.length_eq_zero.mp (by omega)
    subst this
    simp only [unescapeCheck, Except.ok.injEq, Prod.mk.injEq] at h
    obtain ⟨rfl, rfl⟩ := h
    simp
  | succ k ih =>
    intro t ht n hp n1 hp1 h
    rcases t with _ | ⟨c, rest⟩
    · simp only [unescapeCheck, Except.ok.injEq, Prod.mk.injEq] at h
      obtain ⟨rfl, rfl⟩ := h
      simp
    · by_cases h25 : c.val = 0x25
      · rcases rest with _ | ⟨h1, _ | ⟨h2, rest⟩⟩
        · simp [unescapeCheck, h25] at h
        · simp [unescapeCheck, h25] at h
        · by_cases hx : ishex h1 = true ∧ ishex h2 = true
          · rw [unescapeCheck_percent mode c h1 h2 rest n hp h25 hx.1 hx.2] at h
            obtain ⟨a1, -, a3⟩ := ih rest (by simp at ht ⊢; omega) _ _ _ _ h
            refine ⟨by omega, fun hh => by omega, fun hm hf => ?_⟩
            obtain ⟨b1, b2⟩ := a3 hm hf
            refine ⟨b1, ?_⟩
            intro x hx1
            simp only [List.mem_cons] at hx1
            rcases hx1 with rfl | rfl | rfl | hx1
            · omega
            · exact ishex_not_plus _ hx.1
            · exact ishex_not_plus _ hx.2
            · exact b2 x hx1
          · simp [unescapeCheck, h25, hx] at h
      · by_cases h2B : c.val = 0x2B
        · rw [unescapeCheck_plus mode c rest n hp h2B] at h
          obtain ⟨a1, a2, a3⟩ := ih rest (by simp at ht ⊢; omega) _ _ _ _ h
          refine ⟨a1, fun hh x hx1 => ?_, fun hm hf => ?_⟩
          · rcases List.mem_cons.mp hx1 with rfl | hx1
            · exact h25
            · exact a2 hh x hx1
          · have := (a3 hm hf).1
            simp [hm] at this
        · rw [unescapeCheck_other mode c rest n hp h25 h2B] at h
          obtain ⟨a1, a2, a3⟩ := ih rest (by simp at ht ⊢; omega) _ _ _ _ h
          refine ⟨a1, fun hh x hx1 => ?_, fun hm hf => ⟨(a3 hm hf).1, fun x hx1 => ?_⟩⟩
          · rcases List.mem_cons.mp hx1 with rfl | hx1
            · exact h25
            · exact a2 hh x hx1
          · rcases List.mem_cons.mp hx1 with rfl | hx1
            · exact h2B
            · exact (a3 hm hf).2 x hx1

theorem unescapeBuild_plain (mode : Encoding) (t : GoString) (h25 : ∀ c ∈ t, c.val ≠ 0x25)
    (h2B : mode = .encodeQueryComponent → ∀ c ∈ t, c.val ≠ 0x2B) : unescapeBuild mode t = t := by
  induction t with
  | nil => rfl
  | cons c rest ih =>
    rw [unescapeBuild_other mode c rest (h25 c (by simp)),
      if_neg (fun hh => h2B hh.2 c (by simp) hh.1),
      ih (fun x hx => h25 x (by simp [hx])) (fun hm x hx => h2B hm x (by simp [hx]))]

/-- Once the check has accepted a string, `unescape` returns what the second
loop builds; the early return is the case in which that is the string itself. -/
theorem unescape_of_check (mode : Encoding) (t : GoString) (n1 : Nat) (hp1 : Bool)
    (h : unescapeCheck mode t 0 false = .ok (n1, hp1)) :
    unescape t mode = .ok (unescapeBuild mode t) := by
  unfold unescape
  rw [h]
  simp only []
  split
  · rename_i hz
    obtain ⟨-, a2, a3⟩ := unescapeCheck_counters mode t.length t (Nat.le_refl _) _ _ _ _ h
    rw [unescapeBuild_plain mode t (a2 hz.1) (fun hm => (a3 hm hz.2).2)]
  · rfl

/-- Unescaping what `escape` produced gives the string back, for every string
and both conventions. -/
theorem unescape_escape (mode : Encoding) (s : GoString) :
    unescape (escape s mode) mode = .ok s := by
  rw [escape_eq_flatMap]
  obtain ⟨n1, hp1, h⟩ := unescapeCheck_escape mode s 0 false
  rw [unescape_of_check mode _ n1 hp1 h, unescapeBuild_escape]

theorem goURL_urlLib : GoURL urlLib := by
  refine ⟨fun _ => rfl, fun _ => rfl, fun s t h => ?_, fun s t h => ?_⟩
  · show QueryUnescape s = .ok t
    simp only [QueryUnescape, h]
  · show PathUnescape s = .ok t
    simp only [PathUnescape, h]

theorem ProcessTool_url (lib : StdLib) (request : ToolRequest) :
    ProcessTool lib (str "url") request = processURL lib request := by
  unfold ProcessTool
  rw [if_neg (by decide), if_neg (by decide), if_pos rfl]

theorem processURL_query (lib : StdLib) (hlib : GoURL lib) (s : GoString) :
    ProcessTool lib (str "url") ⟨s, some (modeSettings (str "encode"))⟩
        = .response ⟨escape s .encodeQueryComponent, []⟩ ∧
      ProcessTool lib (str "url")
          ⟨escape s .encodeQueryComponent, some (modeSettings (str "decode"))⟩
        = .response ⟨s, []⟩ := by
  have hm : ∀ (m i : GoString), resolveMode (str "encode") ⟨i, some (modeSettings m)⟩ = m :=
    fun m i => resolveMode_string _ _ _ _ (modeSettings_mode m)
  constructor
  · rw [ProcessTool_url]
    simp only [processURL, hm, if_true]
    rw [hlib.queryEscape]
  · rw [ProcessTool_url]
    simp only [processURL, hm, if_true]
    rw [if_neg (by decide), hlib.queryUnescape _ _ (unescape_escape .encodeQueryComponent s)]

theorem processURL_component (lib : StdLib) (hlib : GoURL lib) (s : GoString) :
    ProcessTool lib (str "url") ⟨s, some (modeSettings (str "encode-component"))⟩
        = .response ⟨escape s .encodePathSegment, []⟩ ∧
      ProcessTool lib (str "url")
          ⟨escape s .encodePathSegment, some (modeSettings (str "decode-component"))⟩
        = .response ⟨s, []⟩ := by
  have hm : ∀ (m i : GoString), resolveMode (str "encode") ⟨i, some (modeSettings m)⟩ = m :=
    fun m i => resolveMode_string _ _ _ _ (modeSettings_mode m)
  constructor
  · rw [ProcessTool_url]
    simp only [processURL, hm, if_true]
    rw [if_neg (by decide), if_neg (by decide), hlib.pathEscape]
  · rw [ProcessTool_url]
    simp only [processURL, hm, if_true]
    rw [if_neg (by decide), if_neg (by decide), if_neg (by decide),
      hlib.pathUnescape _ _ (unescape_escape .encodePathSegment s)]

/-- C11. With the URL functions of `net/url`, for every string `s` made only
of printable ASCII characters, the url tool in mode `decode` applied to the
Output of mode `encode` on `s` returns the Output `s` with an empty Error, and
so does mode `decode-component` applied to the Output of mode
`encode-component`. -/
theorem C11_url_round_trip (lib : StdLib) (hlib : GoURL lib) (s : GoString)
    (_hs : ∀ c ∈ s, 0x20 ≤ c.val ∧ c.val ≤ 0x7E) :
    (∃ e, ProcessTool lib (str "url") ⟨s, some (modeSettings (str "encode"))⟩
        = .response ⟨e, []⟩ ∧
      ProcessTool lib (str "url") ⟨e, some (modeSettings (str "decode"))⟩
        = .response ⟨s, []⟩) ∧
    (∃ e, ProcessTool lib (str "url") ⟨s, some (modeSettings (str "encode-component"))⟩
        = .response ⟨e, []⟩ ∧
      ProcessTool lib (str "url") ⟨e, some (modeSettings (str "decode-component"))⟩
        = .response ⟨s, []⟩) :=
  ⟨⟨_, processURL_query lib hlib s⟩, ⟨_, processURL_component lib hlib s⟩⟩

set_option maxRecDepth 100000 in
/-- C11, witness: the string `a b+%/?`, with a space, a plus sign, a percent
sign and reserved characters. -/
theorem C11_url_round_trip_witness :
    (∃ e, ProcessTool urlLib (str "url") ⟨str "a b+%/?", some (modeSettings (str "encode"))⟩
        = .response ⟨e, []⟩ ∧
      ProcessTool urlLib (str "url") ⟨e, some (modeSettings (str "decode"))⟩
        = .response ⟨str "a b+%/?", []⟩) ∧
    (∃ e, ProcessTool urlLib (str "url")
          ⟨str "a b+%/?", some (modeSettings (str "encode-component"))⟩
        = .response ⟨e, []⟩ ∧
      ProcessTool urlLib (str "url") ⟨e, some (modeSettings (str "decode-component"))⟩
        = .response ⟨str "a b+%/?", []⟩) :=
  C11_url_round_trip urlLib goURL_urlLib (str "a b+%/?") (by decide)
/-! ## The decode loop returns -/

/-- C12. For every input string, the decode loop of the unicode tool, run as
the code runs it, takes no slice outside the bounds of the current string and
ends: it returns the single forward pass over the input, with the fuel
`len(input)` and with any larger fuel, so the call returns a response and
raises no fault. The same is shown on the empty string, on a string shorter
than six bytes, on a string that ends in a backslash, `u` and two digits, and
on a string that two replacements shorten during the scan. -/
theorem C12_decode_loop_in_bounds_and_terminates (lib : StdLib) (input : GoString) :
    unicodeDecodeLoop input.length input 0 = .ok (decodePass input) ∧
    (∀ fuel, input.length ≤ fuel + 5 →
      unicodeDecodeLoop fuel input 0 = .ok (decodePass input)) ∧
    ProcessTool lib (str "unicode") ⟨input, some (modeSettings (str "decode"))⟩
      = .response ⟨decodePass input, []⟩ ∧
    (∀ settings : Option SettingsMap,
      ∃ r, ProcessTool lib (str "unicode") ⟨input, settings⟩ = .response r) ∧
    unicodeDecodeLoop 0 [] 0 = .ok [] ∧
    unicodeDecodeLoop (str "\\u004").length (str "\\u004") 0 = .ok (str "\\u004") ∧
    unicodeDecodeLoop (str "abcdef\\u00").length (str "abcdef\\u00") 0
      = .ok (str "abcdef\\u00") ∧
    unicodeDecodeLoop (str "\\u0041\\u00e9").length (str "\\u0041\\u00e9") 0
      = .ok (str "Aé") := by
  refine ⟨unicodeDecodeLoop_input input, fun fuel hf => ?_, processUnicode_decode lib input,
    fun settings => ?_, rfl, rfl, rfl, rfl⟩
  · have := unicodeDecodeLoop_eq fuel [] input hf
    simpa using this
  · obtain ⟨r, hr, _⟩ := ProcessTool_response lib (str "unicode") ⟨input, settings⟩ (by decide)
    exact ⟨r, hr⟩

end WebTools
